import Mathlib

/-!
Shallow embedding of the entry state-handling core of the
external-dns-management controller: the state-transition kernel
(AddEntryVersion), entry cleanup and duplicate promotion (cleanupEntry),
the per-event handler (HandleUpdateEntry), the DNS-lock subsystem
(checkAndUpdateLock, checkAndDeleteLock, UpdateLockStates), and the plain
record-set conversions of the direct package, together with theorems
checking the specification claims.

Go maps are embedded as association lists, Go pointers to entries as the
(unique) object name of the entry, machine integers as Int with explicit
wrapping where a conversion matters, and the external I/O performed by a
function (DNS reads and writes, TXT lookups) as explicit inputs.
-/

namespace EDNS

/-- Modelled from the spec: status values (section 6); the api constants
STATE_READY, STATE_PENDING, STATE_ERROR, STATE_STALE, STATE_INVALID are
declared in the api package, which is not part of the sources. The exact
strings are irrelevant to the claims, only their distinctness is used. -/
def STATE_READY : String := "Ready"

/-- Modelled from the spec: api state constant, see STATE_READY. -/
def STATE_PENDING : String := "Pending"

/-- Modelled from the spec: api state constant, see STATE_READY. -/
def STATE_ERROR : String := "Error"

/-- Modelled from the spec: api state constant, see STATE_READY. -/
def STATE_STALE : String := "Stale"

/-- Modelled from the spec: api state constant, see STATE_READY. -/
def STATE_INVALID : String := "Invalid"

/-- Modelled from the spec: the TXT attribute key of the timestamp
(section 6: the timestamp is attribute "timestamp=unix-seconds"); the
constant dns.ATTR_TIMESTAMP lives in the dns package, not in the sources. -/
def ATTR_TIMESTAMP : String := "timestamp"

/-- Modelled from the spec: the TXT attribute key of the lock id
(section 6); the constant dns.ATTR_LOCKID is not in the sources. -/
def ATTR_LOCKID : String := "lockid"

/-- Kind of a desired-state object: a regular DNS entry or a DNS lock. -/
inductive EntryKind where
  | regular
  | lock
deriving DecidableEq, Repr

/-- Reconcile status returned by a handler, embedding the
reconcile.Status values used by the code: Succeeded (possibly with a
reschedule interval attached by RescheduleAfter), Delay, Failed, Repeat. -/
inductive RStatus where
  | succeeded (reschedule : Option Int)
  | delayed
  | failed
  | again
deriving DecidableEq, Repr

/-- Embeds status.IsSucceeded(). -/
def RStatus.isSucceeded : RStatus → Bool
  | .succeeded _ => true
  | _ => false

/-- Embeds status.RescheduleAfter(d). -/
def RStatus.rescheduleAfter (s : RStatus) (d : Int) : RStatus :=
  match s with
  | .succeeded _ => .succeeded (some d)
  | s => s

/-- An entry of the controller state (provider.Entry together with the
fields of its underlying object that the embedded functions read).
Times are unix seconds. -/
structure Entry where
  objectName : String
  dnsName : String
  kind : EntryKind
  creation : Nat
  valid : Bool
  duplicate : Bool
  modified : Bool
  activezone : String
  zoneId : String
  isActive : Bool
  interval : Int
  statusState : String
  statusZone : Option String
  updateRequired : Bool
  lockId : Option String
  lockTimestamp : Int
  texts : List String
  ttl : Int
  statusFirstFailedLookup : Option Int
deriving DecidableEq, Repr

/-- An entry version as produced by NewEntryVersion and Setup for one
observed object. The construction of the resulting entry from the version
(NewEntry and Entry.Update, entry.go, not in the sources) merely carries
these fields over, so the version holds the merged values directly. -/
structure EntryVersion where
  objectName : String
  dnsName : String
  kind : EntryKind
  creation : Nat
  isDeleting : Bool
  valid : Bool
  modified : Bool
  activezone : String
  zoneId : String
  isActive : Bool
  interval : Int
  statusState : String
  statusZone : Option String
  statusProviderType : Option String
  updateRequired : Bool
  lockId : Option String
  lockTimestamp : Int
  texts : List String
  ttl : Int
  statusFirstFailedLookup : Option Int
deriving DecidableEq, Repr

/-- The entry built from a version (NewEntry / Entry.Update); the
duplicate flag starts cleared and is set only by the arbitration. -/
def mkEntry (v : EntryVersion) : Entry :=
  { objectName := v.objectName
    dnsName := v.dnsName
    kind := v.kind
    creation := v.creation
    valid := v.valid
    duplicate := false
    modified := v.modified
    activezone := v.activezone
    zoneId := v.zoneId
    isActive := v.isActive
    interval := v.interval
    statusState := v.statusState
    statusZone := v.statusZone
    updateRequired := v.updateRequired
    lockId := v.lockId
    lockTimestamp := v.lockTimestamp
    texts := v.texts
    ttl := v.ttl
    statusFirstFailedLookup := v.statusFirstFailedLookup }

/-- Association-list read, embedding a Go map lookup. -/
def aget : List (String × String) → String → Option String
  | [], _ => none
  | (k, x) :: rest, n => if k = n then some x else aget rest n

/-- Association-list write, embedding a Go map assignment. -/
def aput : List (String × String) → String → String → List (String × String)
  | [], n, x => [(n, x)]
  | (k, y) :: rest, n, x =>
      if k = n then (n, x) :: rest else (k, y) :: aput rest n x

/-- Association-list delete, embedding a Go map delete. -/
def adel (l : List (String × String)) (n : String) : List (String × String) :=
  l.filter (fun p => p.1 ≠ n)

/-- Lookup of an entry by object name (the entries index). -/
def getEntry (l : List Entry) (n : String) : Option Entry :=
  l.find? (fun a => a.objectName = n)

/-- Replacement or insertion of an entry by object name
(map assignment entries[name] = e). -/
def putEntry : List Entry → Entry → List Entry
  | [], e => [e]
  | a :: rest, e =>
      if a.objectName = e.objectName then e :: rest else a :: putEntry rest e

/-- Removal of an entry by object name (map delete). -/
def delEntry (l : List Entry) (n : String) : List Entry :=
  l.filter (fun a => a.objectName ≠ n)

/-- Insertion into a string set (utils.StringSet add). -/
def addOnce (l : List String) (s : String) : List String :=
  if l.contains s then l else l ++ [s]

/-- Global controller state: the entry index and its secondary maps,
the known zones, the finalizer marks on the input objects, the outdated
set, the blocking set, and the provider-type codes of the handler factory. -/
structure GState where
  entries : List Entry
  dnsnames : List (String × String)
  zones : List String
  finalizers : List String
  outdated : List String
  blockingEntries : List String
  managedTypes : List String
deriving DecidableEq, Repr

/-- A status write performed on an object (UpdateStatus /
UpdateStandardObjectStatus), recorded as an output. -/
structure StatusUpdate where
  obj : String
  state : String
  msg : String
deriving DecidableEq, Repr

/-- Modelled from the spec: the Before order of entries (section 4.3),
primarily the creation timestamp, with the object name as tie-break;
Entry.Before lives in entry.go, which is not in the sources. -/
def beforeE (a b : Entry) : Bool :=
  if a.creation = b.creation then decide (a.objectName < b.objectName)
  else decide (a.creation < b.creation)

/-- The duplicate-promotion scan of cleanupEntry: the loop over the
remaining entries keeping the earliest duplicate claimant of the name. -/
def findDuplicate (target : String) : List Entry → Option Entry → Option Entry
  | [], found => found
  | a :: rest, found =>
      if a.duplicate && a.dnsName == target then
        match found with
        | none => findDuplicate target rest (some a)
        | some f =>
            findDuplicate target rest (if beforeE a f then some a else some f)
      else findDuplicate target rest found

/-- Entries.Delete: removes the index slot of the entry only when the
slot still holds this very entry (entry.go, not in the sources; pointer
identity is embedded as structural equality). -/
def entriesDelete (l : List Entry) (e : Entry) : List Entry :=
  match getEntry l e.objectName with
  | some f => if f = e then delEntry l e.objectName else l
  | none => l

/-- Result of cleanupEntry: the new state and the object names whose
reconciliation was triggered. -/
structure CleanupResult where
  state : GState
  triggered : List String
deriving DecidableEq, Repr

/-- Embeds cleanupEntry: removes the entry from the index and, when it
held the active claim of its DNS name, promotes the earliest duplicate
claimant (triggering it) and releases the name. -/
def cleanupEntry (st : GState) (e : Entry) : CleanupResult :=
  let entries1 := entriesDelete st.entries e
  if aget st.dnsnames e.dnsName = some e.objectName then
    let found := findDuplicate e.dnsName entries1 none
    let trig := match found with
      | some f => [f.objectName]
      | none => []
    { state := { st with entries := entries1, dnsnames := adel st.dnsnames e.dnsName }
      triggered := trig }
  else
    { state := { st with entries := entries1 }, triggered := [] }

/-- Result of AddEntryVersion: the returned entry (none when the zone is
foreign), the returned status, the new state, the entry keys and zone ids
whose reconciliation was triggered, the status writes performed, and
whether the finalizer was removed from the object. -/
structure AddResult where
  entry : Option Entry
  status : RStatus
  state : GState
  triggeredKeys : List String
  triggeredZones : List String
  statusUpdates : List StatusUpdate
  removedFinalizer : Bool
deriving DecidableEq, Repr

/-- Embeds state.IsManaging: the provider type of the version status is
one of the handler factory type codes. -/
def isManaging (st : GState) (v : EntryVersion) : Bool :=
  match v.statusProviderType with
  | none => false
  | some t => st.managedTypes.contains t

/-- Modelled from the spec: the AlreadyBusy diagnostic of the duplicate
arbiter cites the DNS name and the holding entry (section 4.3); the error
type AlreadyBusyForEntry lives in the provider errors package, which is
not in the sources. -/
def alreadyBusyMsg (dnsname obj : String) : String :=
  "DNS name " ++ dnsname ++ " already busy for entry " ++ obj

/-- Tail of AddEntryVersion for a non-deleting managed entry: activate a
valid entry that is neither ready nor pending, and install it as the
active claim of its DNS name. -/
def installActive (st : GState) (v : EntryVersion) (new : Entry) (status : RStatus)
    (trigK trigZ : List String) : AddResult :=
  let act := new.valid && (new.statusState != STATE_READY)
      && (new.statusState != STATE_PENDING)
  let new1 := if act then { new with statusState := STATE_PENDING } else new
  let sups := if act then
      [StatusUpdate.mk v.objectName STATE_PENDING ("activating for " ++ new.dnsName)]
    else []
  { entry := some new1
    status := status
    state := { st with
      entries := putEntry st.entries new1
      dnsnames := aput st.dnsnames v.dnsName new1.objectName }
    triggeredKeys := trigK
    triggeredZones := trigZ
    statusUpdates := sups
    removedFinalizer := false }

/-- Duplicate arbitration of AddEntryVersion (the block on the dnsnames
index): when the DNS name is held by a different entry, the one earlier
under Before wins; the loser is marked duplicate with modified cleared,
and the loser is either the incoming entry (which keeps the holder in
place and, when the incoming status is succeeded, is transitioned to
error with the AlreadyBusy diagnostic) or the current holder (which is
re-triggered while the incoming entry is installed). -/
def arbitrateAndInstall (st : GState) (v : EntryVersion) (new : Entry) (status : RStatus)
    (trigK trigZ : List String) : AddResult :=
  let dnsname := v.dnsName
  let cur := (aget st.dnsnames dnsname).bind (fun n => getEntry st.entries n)
  if dnsname ≠ "" then
    match cur with
    | some c =>
      if c.objectName ≠ new.objectName then
        if beforeE c new then
          let new2 := { new with duplicate := true, modified := false }
          let stL := { st with entries := putEntry st.entries new2 }
          if status.isSucceeded then
            let new3 := { new2 with statusState := STATE_ERROR }
            { entry := some new3
              status := status
              state := { stL with entries := putEntry stL.entries new3 }
              triggeredKeys := trigK
              triggeredZones := trigZ
              statusUpdates :=
                [StatusUpdate.mk v.objectName STATE_ERROR
                  (alreadyBusyMsg dnsname c.objectName)]
              removedFinalizer := false }
          else
            { entry := some new2
              status := status
              state := stL
              triggeredKeys := trigK
              triggeredZones := trigZ
              statusUpdates := []
              removedFinalizer := false }
        else
          let c2 := { c with duplicate := true, modified := false }
          let st5 := { st with entries := putEntry st.entries c2 }
          installActive st5 v new status (trigK ++ [c.objectName]) trigZ
      else installActive st v new status trigK trigZ
    | none => installActive st v new status trigK trigZ
  else
    { entry := some new
      status := status
      state := st
      triggeredKeys := trigK
      triggeredZones := trigZ
      statusUpdates := []
      removedFinalizer := false }

/-- Deleting branch of AddEntryVersion (after the cleanup of the old
entry): a valid entry whose zone is known and whose object holds the
finalizer is put on the outdated set; a valid entry whose zone is gone
loses the finalizer when it is not active or its status zone is unset;
an invalid entry loses the finalizer unless it is active and stale. -/
def addEntryDeleting (st : GState) (v : EntryVersion) (new : Entry)
    (trig : List String) : AddResult :=
  let base : AddResult :=
    { entry := some new
      status := .succeeded none
      state := st
      triggeredKeys := trig
      triggeredZones := []
      statusUpdates := []
      removedFinalizer := false }
  let removeFin : AddResult :=
    { base with
      state := { st with finalizers := st.finalizers.filter (fun n => n ≠ v.objectName) }
      removedFinalizer := true }
  if new.valid then
    if st.zones.contains new.activezone then
      if st.finalizers.contains new.objectName then
        { base with state := { st with outdated := addOnce st.outdated new.objectName } }
      else base
    else
      if !new.isActive || v.statusZone = none then removeFin else base
  else
    if !new.isActive || v.statusState ≠ STATE_STALE then removeFin
    else base

/-- Embeds AddEntryVersion, the state-transition kernel: unblocks the
object, merges the version with the prior entry, runs the deleting branch
or installs the entry (setting the finalizer for valid managed entries,
cleaning up a prior entry whose DNS name changed, skipping foreign zones,
and arbitrating duplicate DNS-name claims). -/
def addEntryVersion (st0 : GState) (v : EntryVersion) (status : RStatus) : AddResult :=
  let st1 := { st0 with
    blockingEntries := st0.blockingEntries.filter (fun n => n ≠ v.objectName) }
  let old := getEntry st1.entries v.objectName
  let new := mkEntry v
  if v.isDeleting then
    match old with
    | some o =>
      if o.kind ≠ EntryKind.lock then
        let c := cleanupEntry st1 o
        addEntryDeleting c.state v new c.triggered
      else addEntryDeleting st1 v new []
    | none => addEntryDeleting st1 v new []
  else
    let st2 := if new.valid && isManaging st1 v then
        { st1 with finalizers := addOnce st1.finalizers new.objectName }
      else st1
    let st3 := { st2 with entries := putEntry st2.entries new }
    let afterOld : GState × List String × List String :=
      match old with
      | some o =>
        if o.dnsName ≠ new.dnsName then
          let c := cleanupEntry st3 o
          let tz := if o.activezone ≠ "" && o.activezone ≠ new.zoneId
              && c.state.zones.contains o.activezone then [o.activezone] else []
          (c.state, c.triggered, tz)
        else (st3, [], [])
      | none => (st3, [], [])
    let st4 := afterOld.1
    let trigK := afterOld.2.1
    let trigZ := afterOld.2.2
    if !(isManaging st4 v) then
      { entry := none
        status := status
        state := st4
        triggeredKeys := trigK
        triggeredZones := trigZ
        statusUpdates := []
        removedFinalizer := false }
    else
      arbitrateAndInstall st4 v new status trigK trigZ

/-- An entry premise: the provider and zone resolution computed per
reconcile (EntryPremise). Only the components entering Match are kept. -/
structure Premise where
  ptype : String
  zoneid : String
  providerName : Option String
  fallbackPresent : Bool
deriving DecidableEq, Repr

/-- Modelled from the spec: two premises match iff their (ptype, zoneid,
provider object name, fallback-present) tuples are equal (section 3);
EntryPremise.Match lives in state.go, which is not in the sources. -/
def premiseMatch (p q : Premise) : Bool :=
  (p.ptype == q.ptype) && (p.zoneid == q.zoneid)
    && (p.providerName == q.providerName) && (p.fallbackPresent == q.fallbackPresent)

/-- A record of a direct.RecordSet as used by the lock subsystem: its
value string and its TTL. -/
structure RecordVal where
  value : String
  ttl : Int
deriving DecidableEq, Repr

/-- Outcome of handler.GetRecordSet: a failure, or a possibly absent
record set (Go returns a nil set when the name has no records). -/
inductive ReadResult where
  | failure
  | success (rs : Option (List RecordVal))
deriving DecidableEq, Repr

/-- The external DNS side of one lock reconcile: the observed read
result and whether a write or delete issued against the backend
succeeds. -/
structure LockEnv where
  readResult : ReadResult
  writeOk : Bool
  deleteOk : Bool
deriving DecidableEq, Repr

/-- Result of a lock handler run: the returned status, whether
CreateOrUpdateRecordSet or DeleteRecordSet was called, whether the
finalizer was removed, the status writes, and the updated entry. -/
structure LockResult where
  status : RStatus
  wrote : Bool
  deleted : Bool
  removedFinalizer : Bool
  statusUpdates : List StatusUpdate
  entry : Entry
deriving DecidableEq, Repr

/-- Embeds newAttrKeyPrefix of the direct package: the marker a record
value starts with when it encodes the named attribute. -/
def attrKeyStart (name : String) : String := "\"" ++ name ++ "="

/-- Embeds direct.RecordSet.GetAttr: the value of the first record
whose value starts with the attribute marker, between the marker and the
closing quote; empty when absent. Strings are handled at the character
level (the Go code slices byte strings). -/
def getAttr (rs : List RecordVal) (name : String) : String :=
  match rs.find? (fun r => (attrKeyStart name).data.isPrefixOf r.value.data) with
  | some r => String.mk ((r.value.data.drop (attrKeyStart name).data.length).dropLast)
  | none => ""

/-- Decimal digit accumulator of parseInt64. -/
def digitsToNat (acc : Nat) : List Char → Option Nat
  | [] => some acc
  | c :: rest =>
      if '0' ≤ c ∧ c ≤ '9' then
        digitsToNat (acc * 10 + (c.toNat - Char.toNat '0')) rest
      else none

/-- The sign handling of parseInt64 over the characters. -/
def parseDec : List Char → Option Int
  | '-' :: rest =>
      if rest = [] then none else (digitsToNat 0 rest).map (fun n => -(n : Int))
  | '+' :: rest =>
      if rest = [] then none else (digitsToNat 0 rest).map (fun n => (n : Int))
  | [] => none
  | l => (digitsToNat 0 l).map (fun n => (n : Int))

/-- Embeds strconv.ParseInt(s, 10, 64): a signed decimal within the
int64 range, none on any malformed or out-of-range input. -/
def parseInt64 (s : String) : Option Int :=
  match parseDec s.data with
  | some i => if -(2 ^ 63) ≤ i ∧ i < 2 ^ 63 then some i else none
  | none => none

/-- Modelled from the spec: a lock TXT value is the quoted attribute
string (section 6); dnsutils.NewText, which performs the quoting, is not
in the sources. -/
def txtQuoted (s : String) : String := "\"" ++ s ++ "\""

/-- Insertion into a string set keeping the first occurrence
(utils.StringSet.Add). -/
def insertOnce (l : List String) (s : String) : List String :=
  if l.contains s then l else l ++ [s]

/-- The string set of a list of values (utils.NewStringSet + Add loop). -/
def stringSet (l : List String) : List String := l.foldl insertOnce []

/-- Tail of checkAndUpdateLock: write the desired record set when it
differs from the observed one, then clear updateRequired and the failed
lookup mark and record the zone in the status. -/
def lockWriteFinish (entry : Entry) (premise : Premise) (env : LockEnv)
    (changed : Bool) : LockResult :=
  if changed && !env.writeOk then
    { status := .delayed, wrote := true, deleted := false, removedFinalizer := false
      statusUpdates := [], entry := entry }
  else
    let entry1 := { entry with
      updateRequired := false
      statusFirstFailedLookup := none
      statusZone := some premise.zoneid }
    { status := .succeeded none, wrote := changed, deleted := false
      removedFinalizer := false, statusUpdates := [], entry := entry1 }

/-- Embeds checkAndUpdateLock: nothing to do unless updateRequired; read
the TXT record set; on a foreign lock id go stale; on an unparsable
timestamp go stale; back off from a strictly newer timestamp; otherwise
write the desired records when they differ from the observed ones. -/
def checkAndUpdateLock (entry : Entry) (premise : Premise) (env : LockEnv) : LockResult :=
  if !entry.updateRequired then
    { status := .succeeded none, wrote := false, deleted := false
      removedFinalizer := false, statusUpdates := [], entry := entry }
  else
    let newRS := entry.texts.map (fun s => RecordVal.mk (txtQuoted s) entry.ttl)
    match env.readResult with
    | .failure =>
      { status := .delayed, wrote := false, deleted := false
        removedFinalizer := false, statusUpdates := [], entry := entry }
    | .success rsOpt =>
      match rsOpt.getD [] with
      | [] => lockWriteFinish entry premise env true
      | r0 :: rest =>
        let rs := r0 :: rest
        let lckDNS := getAttr rs ATTR_LOCKID
        let lckOwn := entry.lockId.getD ""
        if lckOwn ≠ lckDNS then
          { status := .succeeded none, wrote := false, deleted := false
            removedFinalizer := false
            statusUpdates := [StatusUpdate.mk entry.objectName STATE_STALE
              ("mismatching lock ids " ++ lckOwn ++ " != " ++ lckDNS)]
            entry := entry }
        else
          match parseInt64 (getAttr rs ATTR_TIMESTAMP) with
          | none =>
            { status := .succeeded none, wrote := false, deleted := false
              removedFinalizer := false
              statusUpdates := [StatusUpdate.mk entry.objectName STATE_STALE
                ("invalid timestamp in DNS record: " ++ getAttr rs ATTR_TIMESTAMP)]
              entry := entry }
          | some i =>
            if entry.lockTimestamp < i then
              { status := .succeeded none, wrote := false, deleted := false
                removedFinalizer := false, statusUpdates := [], entry := entry }
            else
              let oldTTL := r0.ttl
              let oldRecords := stringSet (rs.map RecordVal.value)
              let changed := !((newRS.length == oldRecords.length)
                && newRS.all (fun r => oldRecords.contains r.value && (oldTTL == r.ttl)))
              lockWriteFinish entry premise env changed

/-- Embeds checkAndDeleteLock: delete the TXT record set only when the
observed lock id equals ours and the observed timestamp (parsed, zero on
error) is not after ours; then remove the finalizer. -/
def checkAndDeleteLock (entry : Entry) (env : LockEnv) : LockResult :=
  match env.readResult with
  | .failure =>
    { status := .delayed, wrote := false, deleted := false
      removedFinalizer := false, statusUpdates := [], entry := entry }
  | .success rsOpt =>
    match rsOpt with
    | some rs =>
      let lckDNS := getAttr rs ATTR_LOCKID
      let lckOwn := entry.lockId.getD ""
      let i := (parseInt64 (getAttr rs ATTR_TIMESTAMP)).getD 0
      if lckOwn = lckDNS ∧ i ≤ entry.lockTimestamp then
        if env.deleteOk then
          { status := .succeeded none, wrote := false, deleted := true
            removedFinalizer := true, statusUpdates := [], entry := entry }
        else
          { status := .delayed, wrote := false, deleted := true
            removedFinalizer := false, statusUpdates := [], entry := entry }
      else
        { status := .succeeded none, wrote := false, deleted := false
          removedFinalizer := true, statusUpdates := [], entry := entry }
    | none =>
      { status := .succeeded none, wrote := false, deleted := false
        removedFinalizer := true, statusUpdates := [], entry := entry }

/-- Result of HandleUpdateEntry: the final status, the AddEntryVersion
result, the lock handler result for lock-kind entries, and the zone
triggered for a modified entry. -/
structure HandleResult where
  status : RStatus
  addRes : AddResult
  lockRes : Option LockResult
  triggeredZone : Option String
deriving DecidableEq, Repr

/-- Embeds HandleUpdateEntry: computes the premise, builds and adds the
entry version, branches to the lock subsystem for lock-kind entries,
otherwise reschedules by the interval, triggers the zone when modified,
and repeats the reconcile when the recomputed premise no longer matches.
The two premise computations observe a concurrently changing environment
and are therefore inputs (pPre before AddEntryVersion, pPost after), as
is the status computed by Setup. -/
def handleUpdateEntry (st : GState) (v : EntryVersion) (setupStatus : RStatus)
    (pPre pPost : Premise) (env : LockEnv) : HandleResult :=
  let r := addEntryVersion st v setupStatus
  let checked := fun (s : RStatus) =>
    if !v.isDeleting && !premiseMatch pPost pPre then RStatus.again else s
  match r.entry with
  | none =>
    { status := checked r.status, addRes := r, lockRes := none, triggeredZone := none }
  | some new =>
    if new.kind = EntryKind.lock then
      if v.isDeleting then
        let lr := checkAndDeleteLock new env
        { status := lr.status, addRes := r, lockRes := some lr, triggeredZone := none }
      else
        let lr := checkAndUpdateLock new pPre env
        { status := lr.status, addRes := r, lockRes := some lr, triggeredZone := none }
    else
      let s1 := if r.status.isSucceeded && new.valid && decide (0 < new.interval)
        then r.status.rescheduleAfter new.interval else r.status
      let tz := if new.modified && (new.zoneId != "") then some new.zoneId else none
      { status := checked s1, addRes := r, lockRes := none, triggeredZone := tz }

/-- Embeds strings.Trim(s, quote): removes all leading and trailing
double-quote characters. -/
def trimQuote (s : String) : String :=
  let l := s.toList.dropWhile (fun c => c = '"')
  String.mk ((l.reverse.dropWhile (fun c => c = '"')).reverse)

/-- Embeds strings.Split(r, eq) at the character level: the fields of
the string between the occurrences of the equals sign. -/
def splitEq : List Char → List (List Char)
  | [] => [[]]
  | c :: rest =>
      let r := splitEq rest
      if c = '=' then [] :: r
      else
        match r with
        | h :: t => (c :: h) :: t
        | [] => [[c]]

/-- Accumulator of the TXT parsing loop of UpdateLockStates: the parsed
timestamp (none embeds the zero time), the attribute map, and the count
of synthetically keyed strings. -/
structure ParseAcc where
  ts : Option Int
  attrs : List (String × String)
  unnamed : Nat
deriving DecidableEq, Repr

/-- One iteration of the TXT parsing loop of UpdateLockStates: trim
quotes, split at the equals signs; a string that does not split into
exactly two fields gets the synthetic key of the running counter and
itself as value; the timestamp key is parsed into the timestamp (skipped
when unparsable), every other key is stored in the attribute map. -/
def parseTXTStep (acc : ParseAcc) (r0 : String) : ParseAcc :=
  let r := trimQuote r0
  let fields0 := (splitEq r.toList).map (fun l => String.mk l)
  let pair :=
    if fields0.length ≠ 2 then
      (("_" ++ toString acc.unnamed, r), acc.unnamed + 1)
    else
      ((fields0.headD "", (fields0.drop 1).headD ""), acc.unnamed)
  let k := pair.1.1
  let x := pair.1.2
  let unnamed1 := pair.2
  if k = ATTR_TIMESTAMP then
    match parseInt64 x with
    | none => { acc with unnamed := unnamed1 }
    | some i => { acc with ts := some i, unnamed := unnamed1 }
  else
    { acc with attrs := aput acc.attrs k x, unnamed := unnamed1 }

/-- The TXT parsing loop of UpdateLockStates over the looked-up record
strings. -/
def parseTXT (records : List String) : ParseAcc :=
  records.foldl parseTXTStep { ts := none, attrs := [], unnamed := 0 }

/-- One iteration of the TXT parsing loop as the amended claim states
it: a string whose trimmed form contains exactly one equals sign is
stored as attribute key=value (the timestamp key parsed into the
timestamp instead); every other string is assigned the synthetic key of
the running counter, which counts exactly those strings. -/
def parseTXTSpecStep (acc : ParseAcc) (r0 : String) : ParseAcc :=
  let r := trimQuote r0
  if r.toList.count '=' = 1 then
    let k := String.mk (r.toList.takeWhile (fun c => c ≠ '='))
    let x := String.mk ((r.toList.dropWhile (fun c => c ≠ '=')).drop 1)
    if k = ATTR_TIMESTAMP then
      match parseInt64 x with
      | none => acc
      | some i => { acc with ts := some i }
    else { acc with attrs := aput acc.attrs k x }
  else
    { acc with
      attrs := aput acc.attrs ("_" ++ toString acc.unnamed) r
      unnamed := acc.unnamed + 1 }

/-- The TXT parsing loop as the amended claim states it. -/
def parseTXTSpec (records : List String) : ParseAcc :=
  records.foldl parseTXTSpecStep { ts := none, attrs := [], unnamed := 0 }

/-- Result of UpdateLockStates for one lock entry: the updateRequired
flag and re-enqueue, and the written status fields (timestamp, first
failed lookup, state, message, attributes). -/
structure LockStateResult where
  updateRequired : Bool
  enqueued : Bool
  stTimestamp : Option Int
  stFirstFailed : Option Int
  stState : String
  stMsg : String
  stAttrs : List (String × String)
deriving DecidableEq, Repr

/-- Embeds the per-entry body of UpdateLockStates: on a successful TXT
lookup, parse the records and write a ready status; on a failed lookup,
keep a recorded first failure that is after startup (requiring an update
once it is more than twice the TTL old), otherwise record the failure
now (requiring an update when not ready), and write a stale status; the
entry is re-enqueued exactly when the update is required. -/
def processLockEntry (entry : Entry) (lookup : Option (List String))
    (now startup : Int) : LockStateResult :=
  match lookup with
  | some records =>
    let p := parseTXT records
    { updateRequired := false
      enqueued := false
      stTimestamp := p.ts
      stFirstFailed := none
      stState := STATE_READY
      stMsg := "DNS record is set."
      stAttrs := p.attrs }
  | none =>
    let ttl := entry.ttl
    let ff :=
      match entry.statusFirstFailedLookup with
      | some t =>
        if startup < t then (t, decide (2 * ttl < now - t))
        else (now, entry.statusState != STATE_READY)
      | none => (now, entry.statusState != STATE_READY)
    { updateRequired := ff.2
      enqueued := ff.2
      stTimestamp := none
      stFirstFailed := some ff.1
      stState := STATE_STALE
      stMsg := "DNS record cannot be looked up"
      stAttrs := [] }

/-- A record of a dns.RecordSet (a value holder); pkg/dns is not in the
sources, the structure is as the conversions of the direct package use
it: a record carries its value string. -/
structure DnsRecord where
  value : String
deriving DecidableEq, Repr

/-- A dns.RecordSet as the conversions of the direct package use it:
record type, TTL (an int64) and the records. -/
structure DnsRecordSet where
  rtype : String
  ttl : Int
  records : List DnsRecord
deriving DecidableEq, Repr

/-- Embeds dns.NewRecordSet. -/
def NewRecordSet (rtype : String) (ttl : Int) (records : List DnsRecord) : DnsRecordSet :=
  { rtype := rtype, ttl := ttl, records := records }

/-- A plainRecord of the direct package: DNS name, type, TTL (an int)
and value. -/
structure PlainRecord where
  dnsName : String
  rtype : String
  ttl : Int
  value : String
deriving DecidableEq, Repr

/-- Conversion between the 64-bit integer types of Go (int and int64
are both 64 bits wide here): wrap into the two's-complement range. -/
def wrap64 (x : Int) : Int := (x + 2 ^ 63) % 2 ^ 64 - 2 ^ 63

/-- Embeds direct.FromPlainRecordSet: one plain record per record of the
set, all carrying the DNS name, the type and the TTL of the set. -/
def FromPlainRecordSet (dnsName : String) (rs : DnsRecordSet) : List PlainRecord :=
  rs.records.map (fun r =>
    { dnsName := dnsName, rtype := rs.rtype, ttl := wrap64 rs.ttl, value := r.value })

/-- Embeds direct.ToPlainRecordset: the empty set yields the empty name
and no record set; otherwise the DNS name, type and TTL of the first
record together with the values of all records. -/
def ToPlainRecordset (rawrs : List PlainRecord) : String × Option DnsRecordSet :=
  match rawrs with
  | [] => ("", none)
  | r0 :: _ =>
    (r0.dnsName,
      some (NewRecordSet r0.rtype (wrap64 r0.ttl) (rawrs.map (fun r => ⟨r.value⟩))))

/-- A concrete entry version used by the concrete-instance theorems:
a regular valid managed entry named e2 created at time 2. -/
def exV : EntryVersion :=
  { objectName := "e2", dnsName := "www.example.com", kind := .regular, creation := 2
    isDeleting := false, valid := true, modified := true, activezone := "z1", zoneId := "z1"
    isActive := true, interval := 0, statusState := "", statusZone := some "z1"
    statusProviderType := some "t", updateRequired := false, lockId := none
    lockTimestamp := 0, texts := [], ttl := 60, statusFirstFailedLookup := none }

/-- A concrete entry used by the concrete-instance theorems: the active
holder e1 of the DNS name, created at time 1. -/
def exHolder : Entry :=
  { objectName := "e1", dnsName := "www.example.com", kind := .regular, creation := 1
    valid := true, duplicate := false, modified := false, activezone := "z1", zoneId := "z1"
    isActive := true, interval := 0, statusState := "Ready", statusZone := some "z1"
    updateRequired := false, lockId := none, lockTimestamp := 0, texts := [], ttl := 60
    statusFirstFailedLookup := none }

/-- A concrete state used by the concrete-instance theorems: e1 holds
the DNS name and the finalizer, zone z1 and provider type t are known. -/
def exSt : GState :=
  { entries := [exHolder], dnsnames := [("www.example.com", "e1")], zones := ["z1"]
    finalizers := ["e1"], outdated := [], blockingEntries := [], managedTypes := ["t"] }

/-- A concrete deleting version of e1 used by the concrete-instance
theorems. -/
def exDelV : EntryVersion :=
  { exV with objectName := "e1", creation := 1, isDeleting := true, statusState := "Ready" }

/-- A concrete lock entry version used by the concrete-instance
theorems. -/
def exLockV : EntryVersion :=
  { exV with objectName := "l1", dnsName := "lock.example.com", kind := .lock }

/-- A concrete lock entry whose recorded first failed lookup predates
the controller startup, used by the concrete-instance theorems. -/
def exC8 : Entry :=
  { exHolder with
    kind := .lock
    ttl := 60
    statusFirstFailedLookup := some 10
    statusState := "Ready" }

/-- A concrete premise used by the concrete-instance theorems. -/
def exP1 : Premise :=
  { ptype := "t", zoneid := "z1", providerName := some "p", fallbackPresent := false }

/-- A concrete premise differing from exP1 in the zone id. -/
def exP2 : Premise := { exP1 with zoneid := "z2" }

/-- A concrete lock entry owning lock id o1 at timestamp 50 with an
update required. -/
def exLockE : Entry :=
  { exHolder with kind := .lock, updateRequired := true, lockId := some "o1", lockTimestamp := 50 }

/-- A concrete lock entry owning lock id o2 with an update required. -/
def exLockE2 : Entry :=
  { exHolder with kind := .lock, updateRequired := true, lockId := some "o2" }

/-- A concrete lock entry owning lock id o1 at timestamp 50. -/
def exLockE3 : Entry :=
  { exHolder with kind := .lock, lockId := some "o1", lockTimestamp := 50 }

/-- A concrete observed TXT record set: lock id o1, timestamp 100. -/
def exRS100 : List RecordVal := [⟨"\"lockid=o1\"", 60⟩, ⟨"\"timestamp=100\"", 60⟩]

/-- A concrete observed TXT record set: lock id o1, timestamp 40. -/
def exRS40 : List RecordVal := [⟨"\"lockid=o1\"", 60⟩, ⟨"\"timestamp=40\"", 60⟩]

/-- A concrete observed TXT record set: lock id o1 only. -/
def exRSo1 : List RecordVal := [⟨"\"lockid=o1\"", 60⟩]

/-- A concrete lock environment observing exRS100. -/
def exEnv100 : LockEnv := { readResult := .success (some exRS100), writeOk := true, deleteOk := true }

/-- A concrete lock environment observing exRS40. -/
def exEnv40 : LockEnv := { readResult := .success (some exRS40), writeOk := true, deleteOk := true }

/-- A concrete lock environment observing exRSo1. -/
def exEnvo1 : LockEnv := { readResult := .success (some exRSo1), writeOk := true, deleteOk := true }

/-- A concrete lock environment whose read fails. -/
def exEnvFail : LockEnv := { readResult := .failure, writeOk := true, deleteOk := true }

/-- The candidate set of the duplicate promotion of cleanupEntry: the
remaining indexed entries marked duplicate that carry the same DNS name. -/
def dupCands (st : GState) (e : Entry) : List Entry :=
  (entriesDelete st.entries e).filter (fun a => a.duplicate && a.dnsName == e.dnsName)

/-- The accumulator loop of the duplicate promotion over an already
filtered candidate list: keep the entry earliest under Before. -/
def selectMin (acc : Option Entry) : List Entry → Option Entry
  | [] => acc
  | a :: rest =>
      selectMin
        (match acc with
         | none => some a
         | some f => if beforeE a f then some a else some f) rest

/-- A concrete duplicate claimant of the DNS name, created at time 5. -/
def exDup1 : Entry :=
  { exHolder with objectName := "d1", duplicate := true, creation := 5 }

/-- A concrete duplicate claimant of the DNS name, created at time 3. -/
def exDup2 : Entry :=
  { exHolder with objectName := "d2", duplicate := true, creation := 3 }

/-- A concrete state with the active holder e1 and two duplicate
claimants of its DNS name. -/
def exCleanSt : GState :=
  { exSt with entries := [exHolder, exDup1, exDup2] }

/-- The state reached by a non-deleting AddEntryVersion just before the
duplicate arbitration, when the prior entry (if any) kept its DNS name:
the object unblocked, the finalizer set for a valid managed entry, and
the merged entry installed in the index. -/
def liveState (st : GState) (v : EntryVersion) : GState :=
  { entries := putEntry st.entries (mkEntry v)
    dnsnames := st.dnsnames
    zones := st.zones
    finalizers :=
      if ((mkEntry v).valid && isManaging st v) = true then
        addOnce st.finalizers (mkEntry v).objectName
      else st.finalizers
    outdated := st.outdated
    blockingEntries := st.blockingEntries.filter (fun n => n ≠ v.objectName)
    managedTypes := st.managedTypes }

lemma aget_aput_eq (l : List (String × String)) (n x : String) :
    aget (aput l n x) n = some x := by
  induction l with
  | nil => simp [aput, aget]
  | cons p rest ih =>
    obtain ⟨k, y⟩ := p
    by_cases h : k = n
    · simp [aput, aget, h]
    · simp [aput, aget, h, ih]

lemma aget_adel (l : List (String × String)) (n : String) :
    aget (adel l n) n = none := by
  induction l with
  | nil => simp [adel, aget]
  | cons p rest ih =>
    obtain ⟨k, y⟩ := p
    by_cases h : k = n
    · simpa [adel, aget, h] using ih
    · simpa [adel, aget, h] using ih

lemma getEntry_name {l : List Entry} {n : String} {e : Entry}
    (h : getEntry l n = some e) : e.objectName = n := by
  have h2 := List.find?_some h
  simpa using h2

lemma getEntry_mem {l : List Entry} {n : String} {e : Entry}
    (h : getEntry l n = some e) : e ∈ l :=
  List.mem_of_find?_eq_some h

lemma getEntry_putEntry_ne (l : List Entry) (e : Entry) {n : String}
    (h : n ≠ e.objectName) : getEntry (putEntry l e) n = getEntry l n := by
  induction l with
  | nil => simp [putEntry, getEntry, Ne.symm h]
  | cons a rest ih =>
    by_cases ha : a.objectName = e.objectName
    · simp [putEntry, getEntry, ha, Ne.symm h]
    · by_cases hn : a.objectName = n
      · simp [putEntry, getEntry, ha, hn, h]
      · simpa [putEntry, getEntry, ha, hn] using ih

lemma getEntry_putEntry_eq (l : List Entry) (e : Entry) :
    getEntry (putEntry l e) e.objectName = some e := by
  induction l with
  | nil => simp [putEntry, getEntry]
  | cons a rest ih =>
    by_cases ha : a.objectName = e.objectName
    · simp [putEntry, getEntry, ha]
    · simpa [putEntry, getEntry, ha] using ih

lemma beforeE_irrefl (a : Entry) : beforeE a a = false := by
  simp [beforeE]

lemma beforeE_asymm {a b : Entry} (h : beforeE a b = true) : beforeE b a = false := by
  unfold beforeE at h ⊢
  by_cases hc : a.creation = b.creation
  · rw [if_pos hc] at h
    rw [if_pos hc.symm]
    exact decide_eq_false (lt_asymm (of_decide_eq_true h))
  · rw [if_neg hc] at h
    rw [if_neg (Ne.symm hc)]
    have h2 := of_decide_eq_true h
    exact decide_eq_false (by omega)

lemma beforeE_total {a b : Entry} (h : a.objectName ≠ b.objectName) :
    beforeE a b = true ∨ beforeE b a = true := by
  unfold beforeE
  by_cases hc : a.creation = b.creation
  · rw [if_pos hc, if_pos hc.symm]
    rcases lt_or_gt_of_ne h with hlt | hgt
    · exact Or.inl (decide_eq_true hlt)
    · exact Or.inr (decide_eq_true hgt)
  · rw [if_neg hc, if_neg (Ne.symm hc)]
    rcases Nat.lt_or_ge a.creation b.creation with hlt | hge
    · exact Or.inl (decide_eq_true hlt)
    · have hgt : b.creation < a.creation :=
        lt_of_le_of_ne hge (fun he => hc he.symm)
      exact Or.inr (decide_eq_true hgt)

lemma beforeE_trans {a b c : Entry} (h1 : beforeE a b = true)
    (h2 : beforeE b c = true) : beforeE a c = true := by
  unfold beforeE at h1 h2 ⊢
  by_cases hab : a.creation = b.creation
  · by_cases hbc : b.creation = c.creation
    · rw [if_pos hab] at h1
      rw [if_pos hbc] at h2
      rw [if_pos (hab.trans hbc)]
      exact decide_eq_true (lt_trans (of_decide_eq_true h1) (of_decide_eq_true h2))
    · rw [if_pos hab] at h1
      rw [if_neg hbc] at h2
      have h3 := of_decide_eq_true h2
      rw [if_neg (by omega)]
      exact decide_eq_true (by omega)
  · by_cases hbc : b.creation = c.creation
    · rw [if_neg hab] at h1
      rw [if_pos hbc] at h2
      have h3 := of_decide_eq_true h1
      rw [if_neg (by omega)]
      exact decide_eq_true (by omega)
    · rw [if_neg hab] at h1
      rw [if_neg hbc] at h2
      have h3 := of_decide_eq_true h1
      have h4 := of_decide_eq_true h2
      rw [if_neg (by omega)]
      exact decide_eq_true (by omega)

lemma wrap64_id (x : Int) (hlo : -(2 ^ 63) ≤ x) (hhi : x < 2 ^ 63) :
    wrap64 x = x := by
  unfold wrap64
  have h1 : (0 : Int) ≤ x + 2 ^ 63 := by linarith
  have h2 : x + 2 ^ 63 < 2 ^ 64 := by norm_num at hhi ⊢; linarith
  rw [Int.emod_eq_of_lt h1 h2]
  ring

lemma dnsRecord_eta : (fun r : DnsRecord => DnsRecord.mk r.value) = id :=
  funext fun _ => rfl

/-- C10: round-trip of the record-set conversions: for a non-empty
record set whose TTL fits the int range, ToPlainRecordset inverts
FromPlainRecordSet (returning the DNS name and a record set equal in
type, TTL and record values), and ToPlainRecordset of an empty record
set yields the empty name and no record set. -/
theorem plain_recordset_roundtrip (d : String) (rs : DnsRecordSet)
    (hne : rs.records ≠ []) (hlo : -(2 ^ 63) ≤ rs.ttl) (hhi : rs.ttl < 2 ^ 63) :
    ToPlainRecordset (FromPlainRecordSet d rs)
      = (d, some { rtype := rs.rtype, ttl := rs.ttl, records := rs.records })
    ∧ ToPlainRecordset [] = ("", none) := by
  constructor
  · obtain ⟨r0, rest, hrr⟩ := List.exists_cons_of_ne_nil hne
    have hw : wrap64 rs.ttl = rs.ttl := wrap64_id rs.ttl hlo hhi
    have hcomp :
        ((fun r : PlainRecord => DnsRecord.mk r.value) ∘
          (fun r : DnsRecord =>
            ({ dnsName := d, rtype := rs.rtype, ttl := wrap64 rs.ttl,
               value := r.value } : PlainRecord))) = id :=
      funext fun _ => rfl
    obtain ⟨v0⟩ := r0
    unfold FromPlainRecordSet ToPlainRecordset NewRecordSet
    rw [hrr]
    simp only [List.map_cons, List.map_map]
    rw [hcomp]
    simp [hw]
  · rfl

/-- Concrete instance of the round-trip theorem at a two-record A
record set. -/
theorem plain_recordset_roundtrip_witness :
    ToPlainRecordset (FromPlainRecordSet "www.example.com"
        { rtype := "A", ttl := 300, records := [⟨"1.2.3.4"⟩, ⟨"5.6.7.8"⟩] })
      = ("www.example.com",
          some { rtype := "A", ttl := 300, records := [⟨"1.2.3.4"⟩, ⟨"5.6.7.8"⟩] })
    ∧ ToPlainRecordset [] = ("", none) :=
  plain_recordset_roundtrip "www.example.com"
    { rtype := "A", ttl := 300, records := [⟨"1.2.3.4"⟩, ⟨"5.6.7.8"⟩] }
    (by decide) (by decide) (by decide)

/-- C3: checkAndUpdateLock never overwrites an observed TXT record set
whose parsed timestamp attribute is strictly later than the lock entry's
own timestamp: it returns success without calling
CreateOrUpdateRecordSet. -/
theorem checkAndUpdateLock_monotonic (entry : Entry) (premise : Premise) (env : LockEnv)
    (rsOpt : Option (List RecordVal)) (i : Int)
    (hR : env.readResult = .success rsOpt)
    (hP : parseInt64 (getAttr (rsOpt.getD []) ATTR_TIMESTAMP) = some i)
    (hT : entry.lockTimestamp < i) :
    (checkAndUpdateLock entry premise env).wrote = false ∧
    (checkAndUpdateLock entry premise env).status = .succeeded none := by
  unfold checkAndUpdateLock
  rw [hR]
  cases hU : entry.updateRequired with
  | false => simp [hU]
  | true =>
    simp only [hU, Bool.not_true, Bool.false_eq_true, if_false]
    cases hrs : rsOpt.getD [] with
    | nil =>
      rw [hrs] at hP
      have h0 : parseInt64 (getAttr [] ATTR_TIMESTAMP) = none := rfl
      rw [h0] at hP
      cases hP
    | cons r0 rest =>
      rw [hrs] at hP
      by_cases hL : entry.lockId.getD "" ≠ getAttr (r0 :: rest) ATTR_LOCKID
      · simp [hL]
      · simp only [if_neg hL, hP, if_pos hT]
        simp

/-- Concrete instance of the lock monotonicity theorem: own timestamp
50, observed timestamp 100. -/
theorem checkAndUpdateLock_monotonic_witness :
    (checkAndUpdateLock exLockE exP1 exEnv100).wrote = false ∧
    (checkAndUpdateLock exLockE exP1 exEnv100).status = .succeeded none :=
  checkAndUpdateLock_monotonic exLockE exP1 exEnv100 (some exRS100) 100
    rfl (by decide) (by decide)

/-- C6: checkAndDeleteLock deletes the TXT record set only when the
observed lock id equals the entry's own and the observed timestamp is
not after the entry's own; and whenever reading succeeded and a delete,
if attempted, succeeded, the finalizer is removed and the run succeeds. -/
theorem checkAndDeleteLock_correct (entry : Entry) (env : LockEnv)
    (rsOpt : Option (List RecordVal))
    (hR : env.readResult = .success rsOpt) :
    ((checkAndDeleteLock entry env).deleted = true →
      ∀ rs, rsOpt = some rs →
        entry.lockId.getD "" = getAttr rs ATTR_LOCKID ∧
        (parseInt64 (getAttr rs ATTR_TIMESTAMP)).getD 0 ≤ entry.lockTimestamp) ∧
    ((env.deleteOk = true ∨ (checkAndDeleteLock entry env).deleted = false) →
      (checkAndDeleteLock entry env).removedFinalizer = true ∧
      (checkAndDeleteLock entry env).status = .succeeded none) := by
  unfold checkAndDeleteLock
  rw [hR]
  cases rsOpt with
  | none => simp
  | some rs =>
    by_cases hC : entry.lockId.getD "" = getAttr rs ATTR_LOCKID ∧
        (parseInt64 (getAttr rs ATTR_TIMESTAMP)).getD 0 ≤ entry.lockTimestamp
    · cases hD : env.deleteOk with
      | true => simp [hC, hD]
      | false => simp [hC, hD]
    · simp [hC]

/-- Concrete instance of the lock deletion theorem: matching lock id,
older observed timestamp, successful delete. -/
theorem checkAndDeleteLock_correct_witness :
    ((checkAndDeleteLock exLockE3 exEnv40).deleted = true →
      ∀ rs, (some exRS40) = some rs →
        exLockE3.lockId.getD "" = getAttr rs ATTR_LOCKID ∧
        (parseInt64 (getAttr rs ATTR_TIMESTAMP)).getD 0 ≤ exLockE3.lockTimestamp) ∧
    ((exEnv40.deleteOk = true ∨ (checkAndDeleteLock exLockE3 exEnv40).deleted = false) →
      (checkAndDeleteLock exLockE3 exEnv40).removedFinalizer = true ∧
      (checkAndDeleteLock exLockE3 exEnv40).status = .succeeded none) :=
  checkAndDeleteLock_correct exLockE3 exEnv40 (some exRS40) rfl

/-- C7: on an observed TXT record set whose lock id attribute is present
and differs from the entry's own lock id, checkAndUpdateLock sets the
status to stale with a mismatch message and returns success without
writing any record set. -/
theorem checkAndUpdateLock_foreign (entry : Entry) (premise : Premise) (env : LockEnv)
    (rs : List RecordVal) (a : String)
    (hU : entry.updateRequired = true)
    (hR : env.readResult = .success (some rs))
    (hA : getAttr rs ATTR_LOCKID = a)
    (ha : a ≠ "")
    (hd : a ≠ entry.lockId.getD "") :
    (checkAndUpdateLock entry premise env).wrote = false ∧
    (checkAndUpdateLock entry premise env).status = .succeeded none ∧
    (checkAndUpdateLock entry premise env).statusUpdates
      = [StatusUpdate.mk entry.objectName STATE_STALE
          ("mismatching lock ids " ++ entry.lockId.getD "" ++ " != " ++ a)] := by
  unfold checkAndUpdateLock
  rw [hR]
  simp only [hU, Bool.not_true, Bool.false_eq_true, if_false]
  cases rs with
  | nil =>
    exact absurd (hA.symm.trans rfl) ha
  | cons r0 rest =>
    simp only [Option.getD_some]
    rw [hA]
    simp [Ne.symm hd]

/-- Concrete instance of the foreign-lock theorem: own lock id o2,
observed lock id o1. -/
theorem checkAndUpdateLock_foreign_witness :
    (checkAndUpdateLock exLockE2 exP1 exEnvo1).wrote = false ∧
    (checkAndUpdateLock exLockE2 exP1 exEnvo1).status = .succeeded none ∧
    (checkAndUpdateLock exLockE2 exP1 exEnvo1).statusUpdates
      = [StatusUpdate.mk exLockE2.objectName STATE_STALE
          ("mismatching lock ids " ++ exLockE2.lockId.getD "" ++ " != " ++ "o1")] :=
  checkAndUpdateLock_foreign exLockE2 exP1 exEnvo1 exRSo1 "o1"
    rfl rfl (by decide) (by decide) (by decide)

/-- C8 (amended): on a failed TXT lookup, when the recorded first failed
lookup is later than the controller startup and lies more than twice the
TTL in the past, updateRequired is set and the entry re-enqueued; on a
first failure (no recorded first failed lookup), updateRequired is set
exactly when the status state is not ready. -/
theorem updateLockStates_failure_policy :
    (∀ (entry : Entry) (now startup t : Int),
      entry.statusFirstFailedLookup = some t → startup < t →
      2 * entry.ttl < now - t →
        (processLockEntry entry none now startup).updateRequired = true ∧
        (processLockEntry entry none now startup).enqueued = true) ∧
    (∀ (entry : Entry) (now startup : Int),
      entry.statusFirstFailedLookup = none →
        (processLockEntry entry none now startup).updateRequired
            = (entry.statusState != STATE_READY) ∧
        (processLockEntry entry none now startup).enqueued
            = (entry.statusState != STATE_READY)) := by
  constructor
  · intro entry now startup t h1 h2 h3
    unfold processLockEntry
    rw [h1]
    simp [h2, h3]
  · intro entry now startup h1
    unfold processLockEntry
    rw [h1]
    simp

/-- Concrete instance of the lock failure policy: a failure recorded at
100 after startup 50 observed at 1000 with TTL 60, and a first failure
of a ready entry. -/
theorem updateLockStates_failure_policy_witness :
    ((processLockEntry { exC8 with statusFirstFailedLookup := some 100 } none 1000 50).updateRequired = true ∧
     (processLockEntry { exC8 with statusFirstFailedLookup := some 100 } none 1000 50).enqueued = true) ∧
    ((processLockEntry exHolder none 1000 50).updateRequired
        = (exHolder.statusState != STATE_READY) ∧
     (processLockEntry exHolder none 1000 50).enqueued
        = (exHolder.statusState != STATE_READY)) :=
  ⟨updateLockStates_failure_policy.1 { exC8 with statusFirstFailedLookup := some 100 }
      1000 50 100 rfl (by decide) (by decide),
   updateLockStates_failure_policy.2 exHolder 1000 50 rfl⟩

/-- C8 counterexample: a recorded first failed lookup at time 10, before
the controller startup at 50, lying far more than twice the TTL in the
past at time 1000, does not set updateRequired on the ready entry. -/
theorem updateLockStates_startup_cex :
    exC8.statusFirstFailedLookup = some 10 ∧
    2 * exC8.ttl < 1000 - 10 ∧
    exC8.statusState = STATE_READY ∧
    (processLockEntry exC8 none 1000 50).updateRequired = false ∧
    (processLockEntry exC8 none 1000 50).enqueued = false := by
  decide

lemma splitEq_ne_nil (l : List Char) : splitEq l ≠ [] := by
  cases l with
  | nil => simp [splitEq]
  | cons c rest =>
    unfold splitEq
    by_cases h : c = '='
    · simp [h]
    · simp only [if_neg h]
      cases hr : splitEq rest <;> simp

lemma splitEq_length (l : List Char) : (splitEq l).length = l.count '=' + 1 := by
  induction l with
  | nil => simp [splitEq]
  | cons c rest ih =>
    by_cases h : c = '='
    · subst h
      simp [splitEq, List.count_cons, ih]
    · rcases hr : splitEq rest with _ | ⟨hh, tt⟩
      · exact absurd hr (splitEq_ne_nil rest)
      · rw [hr] at ih
        simp only [List.length_cons] at ih
        unfold splitEq
        simp [h, hr, List.count_cons, Ne.symm h]
        omega

lemma splitEq_count_zero (l : List Char) (h : l.count '=' = 0) : splitEq l = [l] := by
  induction l with
  | nil => simp [splitEq]
  | cons c rest ih =>
    by_cases hc : c = '='
    · subst hc
      simp [List.count_cons] at h
    · have hr : rest.count '=' = 0 := by
        simp [List.count_cons, Ne.symm hc] at h
        exact h
      unfold splitEq
      rw [ih hr]
      simp [hc]

lemma splitEq_count_one (l : List Char) (h : l.count '=' = 1) :
    splitEq l
      = [l.takeWhile (fun c => c ≠ '='), (l.dropWhile (fun c => c ≠ '=')).drop 1] := by
  induction l with
  | nil => simp at h
  | cons c rest ih =>
    by_cases hc : c = '='
    · subst hc
      have hr : rest.count '=' = 0 := by
        simp [List.count_cons] at h
        exact h
      unfold splitEq
      rw [splitEq_count_zero rest hr]
      simp [List.takeWhile_cons, List.dropWhile_cons]
    · have hr : rest.count '=' = 1 := by
        simp [List.count_cons, Ne.symm hc] at h
        exact h
      unfold splitEq
      rw [ih hr]
      simp [hc, List.takeWhile_cons, List.dropWhile_cons]

lemma synthetic_ne_timestamp (n : Nat) : ("_" ++ toString n) ≠ ATTR_TIMESTAMP := by
  intro h
  have h2 : ("_" ++ toString n).data = ATTR_TIMESTAMP.data := by rw [h]
  rw [String.data_append "_" (toString n)] at h2
  have h3 : (("_".data ++ (toString n).data).headD ' ') = (ATTR_TIMESTAMP.data.headD ' ') := by
    rw [h2]
  have h4 : (ATTR_TIMESTAMP.data.headD ' ') = 't' := rfl
  have h5 : (("_".data ++ (toString n).data).headD ' ') = '_' := rfl
  rw [h4, h5] at h3
  exact absurd h3 (by decide)

lemma parseTXTStep_eq (acc : ParseAcc) (r0 : String) :
    parseTXTStep acc r0 = parseTXTSpecStep acc r0 := by
  unfold parseTXTStep parseTXTSpecStep
  dsimp only
  by_cases hc : (trimQuote r0).toList.count '=' = 1
  · rw [splitEq_count_one (trimQuote r0).toList hc, if_pos hc]
    simp
  · have hlen : ((splitEq (trimQuote r0).toList).map (fun l => String.mk l)).length ≠ 2 := by
      rw [List.length_map, splitEq_length]
      omega
    rw [if_neg hc, if_pos hlen]
    dsimp only
    rw [if_neg (synthetic_ne_timestamp acc.unnamed)]

/-- C9 (amended): the TXT parsing loop of UpdateLockStates stores every
string containing exactly one equals sign as attribute key=value (with
the timestamp key parsed as unix seconds into the timestamp instead),
and assigns every string not containing exactly one equals sign the
synthetic key counting exactly those strings from 0 in record order. -/
theorem updateLockStates_txt_parsing (records : List String) :
    parseTXT records = parseTXTSpec records := by
  unfold parseTXT parseTXTSpec
  congr 1
  funext acc r
  exact parseTXTStep_eq acc r

/-- C9 counterexample: with the records a=b=c (two equals signs) and x
(no equals sign), the only string without an equals sign gets synthetic
key _1, while counting unnamed strings from 0 would give it _0, which
the multi-equals string takes instead. -/
theorem updateLockStates_txt_parsing_cex :
    aget (parseTXT ["a=b=c", "x"]).attrs "_0" = some "a=b=c" ∧
    aget (parseTXT ["a=b=c", "x"]).attrs "_1" = some "x" ∧
    aget (parseTXT ["a=b=c", "x"]).attrs "_0" ≠ some "x" := by
  decide

lemma cleanupEntry_frame (st : GState) (e : Entry) :
    (cleanupEntry st e).state.zones = st.zones ∧
    (cleanupEntry st e).state.finalizers = st.finalizers ∧
    (cleanupEntry st e).state.outdated = st.outdated ∧
    (cleanupEntry st e).state.blockingEntries = st.blockingEntries ∧
    (cleanupEntry st e).state.managedTypes = st.managedTypes := by
  unfold cleanupEntry
  dsimp only
  by_cases h : aget st.dnsnames e.dnsName = some e.objectName
  · simp [h]
  · simp [h]

lemma addOnce_contains (l : List String) (s : String) :
    (addOnce l s).contains s = true := by
  unfold addOnce
  by_cases h : l.contains s = true
  · rw [if_pos h]
    exact h
  · rw [if_neg h]
    simp

lemma addEntryDeleting_spec (st : GState) (v : EntryVersion) (trig : List String)
    (hV : v.valid = true) :
    (st.zones.contains v.activezone = true →
     st.finalizers.contains v.objectName = true →
       (addEntryDeleting st v (mkEntry v) trig).state.outdated.contains v.objectName = true ∧
       (addEntryDeleting st v (mkEntry v) trig).removedFinalizer = false ∧
       (addEntryDeleting st v (mkEntry v) trig).state.finalizers = st.finalizers) ∧
    (st.zones.contains v.activezone = false →
     (v.isActive = false ∨ v.statusZone = none) →
       (addEntryDeleting st v (mkEntry v) trig).removedFinalizer = true ∧
       (addEntryDeleting st v (mkEntry v) trig).state.finalizers
         = st.finalizers.filter (fun n => n ≠ v.objectName)) := by
  unfold addEntryDeleting
  dsimp only
  constructor
  · intro hz hf
    simp only [mkEntry] at *
    rw [if_pos hV, if_pos hz, if_pos hf]
    exact ⟨addOnce_contains st.outdated v.objectName, rfl, rfl⟩
  · intro hz hIA
    simp only [mkEntry] at *
    rw [if_pos hV, hz]
    have hcond : (!v.isActive || decide (v.statusZone = none)) = true := by
      rcases hIA with h1 | h1
      · simp [h1]
      · simp [h1]
    simp only [Bool.false_eq_true, if_false]
    rw [if_pos hcond]
    exact ⟨rfl, rfl⟩

/-- C4 (amended): for a valid deleting entry version: when the active
zone is still known and the finalizer held, the entry joins the outdated
set and the finalizer stays; when the active zone is gone and the entry
is not active or its status zone is unset, the finalizer is removed. -/
theorem addEntryVersion_deleting (st : GState) (v : EntryVersion) (status : RStatus)
    (hD : v.isDeleting = true) (hV : v.valid = true) :
    (st.zones.contains v.activezone = true →
     st.finalizers.contains v.objectName = true →
       (addEntryVersion st v status).state.outdated.contains v.objectName = true ∧
       (addEntryVersion st v status).removedFinalizer = false ∧
       (addEntryVersion st v status).state.finalizers = st.finalizers) ∧
    (st.zones.contains v.activezone = false →
     (v.isActive = false ∨ v.statusZone = none) →
       (addEntryVersion st v status).removedFinalizer = true ∧
       (addEntryVersion st v status).state.finalizers
         = st.finalizers.filter (fun n => n ≠ v.objectName)) := by
  unfold addEntryVersion
  dsimp only
  rw [hD]
  simp only [if_true]
  cases hO : getEntry st.entries v.objectName with
  | none =>
    dsimp only
    exact addEntryDeleting_spec
      { st with blockingEntries := st.blockingEntries.filter (fun n => n ≠ v.objectName) }
      v [] hV
  | some o =>
    dsimp only
    by_cases hk : o.kind ≠ EntryKind.lock
    · rw [if_pos hk]
      have hfr := cleanupEntry_frame
        { st with blockingEntries := st.blockingEntries.filter (fun n => n ≠ v.objectName) } o
      have hs := addEntryDeleting_spec
        (cleanupEntry { st with blockingEntries := st.blockingEntries.filter (fun n => n ≠ v.objectName) } o).state
        v (cleanupEntry { st with blockingEntries := st.blockingEntries.filter (fun n => n ≠ v.objectName) } o).triggered hV
      rw [hfr.1, hfr.2.1] at hs
      exact hs
    · rw [if_neg hk]
      exact addEntryDeleting_spec
        { st with blockingEntries := st.blockingEntries.filter (fun n => n ≠ v.objectName) }
        v [] hV

/-- Concrete instances of the deleting-branch theorem: the known-zone
case enqueues e1 to outdated keeping the finalizer; the gone-zone case
with an inactive entry removes it. -/
theorem addEntryVersion_deleting_witness :
    ((addEntryVersion exSt exDelV (.succeeded none)).state.outdated.contains
        exDelV.objectName = true ∧
     (addEntryVersion exSt exDelV (.succeeded none)).removedFinalizer = false ∧
     (addEntryVersion exSt exDelV (.succeeded none)).state.finalizers = exSt.finalizers) ∧
    ((addEntryVersion { exSt with zones := [] } { exDelV with isActive := false }
        (.succeeded none)).removedFinalizer = true ∧
     (addEntryVersion { exSt with zones := [] } { exDelV with isActive := false }
        (.succeeded none)).state.finalizers
       = ({ exSt with zones := ([] : List String)} : GState).finalizers.filter
           (fun n => n ≠ ({ exDelV with isActive := false } : EntryVersion).objectName)) :=
  ⟨(addEntryVersion_deleting exSt exDelV (.succeeded none) rfl rfl).1
      (by decide) (by decide),
   (addEntryVersion_deleting { exSt with zones := [] } { exDelV with isActive := false }
      (.succeeded none) rfl rfl).2 (by decide) (Or.inl rfl)⟩

/-- C4 counterexample: a valid deleting entry whose zone is gone but
which is active and has a status zone set keeps its finalizer. -/
theorem addEntryVersion_deleting_cex :
    exDelV.isDeleting = true ∧ exDelV.valid = true ∧
    ({ exSt with zones := ([] : List String) } : GState).zones.contains exDelV.activezone = false ∧
    (addEntryVersion { exSt with zones := [] } exDelV (.succeeded none)).removedFinalizer = false ∧
    (addEntryVersion { exSt with zones := [] } exDelV (.succeeded none)).state.finalizers
      = ["e1"] := by
  decide

lemma installActive_kind (st : GState) (v : EntryVersion) (new : Entry) (status : RStatus)
    (trigK trigZ : List String) (e : Entry)
    (he : (installActive st v new status trigK trigZ).entry = some e) :
    e.kind = new.kind := by
  unfold installActive at he
  dsimp only at he
  simp only [Option.some.injEq] at he
  subst he
  split <;> rfl

lemma arbitrateAndInstall_kind (st : GState) (v : EntryVersion) (new : Entry)
    (status : RStatus) (trigK trigZ : List String) (e : Entry)
    (he : (arbitrateAndInstall st v new status trigK trigZ).entry = some e) :
    e.kind = new.kind := by
  unfold arbitrateAndInstall at he
  dsimp only at he
  split at he
  · split at he
    · split at he
      · split at he
        · split at he
          · dsimp only at he
            simp only [Option.some.injEq] at he
            subst he
            rfl
          · dsimp only at he
            simp only [Option.some.injEq] at he
            subst he
            rfl
        · exact installActive_kind _ _ _ _ _ _ _ he
      · exact installActive_kind _ _ _ _ _ _ _ he
    · exact installActive_kind _ _ _ _ _ _ _ he
  · simp only [Option.some.injEq] at he
    subst he
    rfl

lemma addEntryDeleting_kind (st : GState) (v : EntryVersion) (new : Entry)
    (trig : List String) (e : Entry)
    (he : (addEntryDeleting st v new trig).entry = some e) :
    e.kind = new.kind := by
  unfold addEntryDeleting at he
  dsimp only at he
  split at he <;> split at he <;>
    (try split at he) <;>
    (simp only [Option.some.injEq] at he; subst he; rfl)

lemma ite_addResult_entry {c : Prop} [Decidable c] {A B : AddResult} {e : Entry}
    (he : (if c then A else B).entry = some e) :
    A.entry = some e ∨ B.entry = some e := by
  by_cases h : c
  · rw [if_pos h] at he
    exact Or.inl he
  · rw [if_neg h] at he
    exact Or.inr he

lemma addEntryVersion_kind (st : GState) (v : EntryVersion) (status : RStatus) (e : Entry)
    (he : (addEntryVersion st v status).entry = some e) :
    e.kind = v.kind := by
  unfold addEntryVersion at he
  dsimp only at he
  by_cases hD : v.isDeleting = true
  · rw [if_pos hD] at he
    cases hO : getEntry st.entries v.objectName with
    | none =>
      rw [hO] at he
      exact addEntryDeleting_kind _ _ _ _ _ he
    | some o =>
      rw [hO] at he
      rcases ite_addResult_entry he with h | h
      · exact addEntryDeleting_kind _ _ _ _ _ h
      · exact addEntryDeleting_kind _ _ _ _ _ h
  · rw [if_neg hD] at he
    rcases ite_addResult_entry he with h | h
    · cases h
    · exact arbitrateAndInstall_kind _ _ _ _ _ _ _ h

/-- C5 (amended): when a non-deleting, non-lock reconcile recomputes a
premise after AddEntryVersion that does not match the premise computed
before it, HandleUpdateEntry returns Repeat; a lock-kind entry instead
returns the lock subsystem's status. -/
theorem handleUpdateEntry_premise_repeat (st : GState) (v : EntryVersion)
    (setupStatus : RStatus) (pPre pPost : Premise) (env : LockEnv)
    (hD : v.isDeleting = false) (hK : v.kind ≠ EntryKind.lock)
    (hM : premiseMatch pPost pPre = false) :
    (handleUpdateEntry st v setupStatus pPre pPost env).status = RStatus.again := by
  unfold handleUpdateEntry
  dsimp only
  cases hE : (addEntryVersion st v setupStatus).entry with
  | none => simp [hD, hM]
  | some new =>
    dsimp only
    have hk2 : ¬ new.kind = EntryKind.lock := by
      rw [addEntryVersion_kind st v setupStatus new hE]
      exact hK
    rw [if_neg hk2]
    simp [hD, hM]

/-- Concrete instance of the premise-repeat theorem: a regular entry
with a changed zone id in the recomputed premise. -/
theorem handleUpdateEntry_premise_repeat_witness :
    (handleUpdateEntry exSt exV (.succeeded none) exP1 exP2 exEnvFail).status
      = RStatus.again :=
  handleUpdateEntry_premise_repeat exSt exV (.succeeded none) exP1 exP2 exEnvFail
    rfl (by decide) (by decide)

/-- C5 counterexample: a lock-kind reconcile with mismatching premises
returns the lock handler's success, not Repeat. -/
theorem handleUpdateEntry_premise_repeat_cex :
    exLockV.isDeleting = false ∧
    premiseMatch exP2 exP1 = false ∧
    (handleUpdateEntry { exSt with entries := [], dnsnames := [] } exLockV
        (.succeeded none) exP1 exP2 exEnvFail).status = .succeeded none ∧
    (handleUpdateEntry { exSt with entries := [], dnsnames := [] } exLockV
        (.succeeded none) exP1 exP2 exEnvFail).status ≠ RStatus.again := by
  decide

lemma arbitrate_loser (S : GState) (v : EntryVersion) (status : RStatus)
    (c : Entry) (cn : String)
    (hName : v.dnsName ≠ "")
    (hCur : aget S.dnsnames v.dnsName = some cn)
    (hCE : getEntry S.entries cn = some c)
    (hne : c.objectName ≠ v.objectName)
    (hb : beforeE c (mkEntry v) = true)
    (hs : status.isSucceeded = true) :
    ∃ e, (arbitrateAndInstall S v (mkEntry v) status [] []).entry = some e ∧
      e.duplicate = true ∧ e.modified = false ∧ e.statusState = STATE_ERROR ∧
      (arbitrateAndInstall S v (mkEntry v) status [] []).statusUpdates
        = [StatusUpdate.mk v.objectName STATE_ERROR (alreadyBusyMsg v.dnsName c.objectName)] ∧
      (arbitrateAndInstall S v (mkEntry v) status [] []).state.dnsnames = S.dnsnames ∧
      (arbitrateAndInstall S v (mkEntry v) status [] []).status = status := by
  unfold arbitrateAndInstall
  dsimp only
  rw [if_pos hName, hCur]
  simp only [Option.some_bind]
  rw [hCE]
  dsimp only
  rw [if_pos (show c.objectName ≠ (mkEntry v).objectName from hne), if_pos hb, if_pos hs]
  exact ⟨_, rfl, rfl, rfl, rfl, rfl, rfl, rfl⟩

lemma arbitrate_winner (S : GState) (v : EntryVersion) (status : RStatus)
    (c : Entry) (cn : String)
    (hName : v.dnsName ≠ "")
    (hCur : aget S.dnsnames v.dnsName = some cn)
    (hCE : getEntry S.entries cn = some c)
    (hne : c.objectName ≠ v.objectName)
    (hb : beforeE (mkEntry v) c = true) :
    getEntry (arbitrateAndInstall S v (mkEntry v) status [] []).state.entries cn
      = some { c with duplicate := true, modified := false } ∧
    (arbitrateAndInstall S v (mkEntry v) status [] []).triggeredKeys = [c.objectName] ∧
    aget (arbitrateAndInstall S v (mkEntry v) status [] []).state.dnsnames v.dnsName
      = some v.objectName ∧
    ∃ e, (arbitrateAndInstall S v (mkEntry v) status [] []).entry = some e ∧
      e.duplicate = false := by
  have hcnc : c.objectName = cn := getEntry_name hCE
  have hnb : beforeE c (mkEntry v) = false := beforeE_asymm hb
  unfold arbitrateAndInstall
  dsimp only
  rw [if_pos hName, hCur]
  simp only [Option.some_bind]
  rw [hCE]
  dsimp only
  rw [if_pos (show c.objectName ≠ (mkEntry v).objectName from hne)]
  rw [if_neg (by rw [hnb]; exact Bool.false_ne_true)]
  unfold installActive
  dsimp only
  by_cases hAct : ((mkEntry v).valid && ((mkEntry v).statusState != STATE_READY)
      && ((mkEntry v).statusState != STATE_PENDING)) = true
  · rw [if_pos hAct]
    dsimp only
    refine ⟨?_, rfl, ?_, ⟨_, rfl, rfl⟩⟩
    · rw [getEntry_putEntry_ne _ _ (by rw [← hcnc]; exact hne)]
      rw [← hcnc]
      exact getEntry_putEntry_eq S.entries { c with duplicate := true, modified := false }
    · exact aget_aput_eq S.dnsnames v.dnsName v.objectName
  · rw [if_neg hAct]
    refine ⟨?_, rfl, ?_, ⟨_, rfl, rfl⟩⟩
    · rw [getEntry_putEntry_ne _ _ (by rw [← hcnc]; exact hne)]
      rw [← hcnc]
      exact getEntry_putEntry_eq S.entries { c with duplicate := true, modified := false }
    · exact aget_aput_eq S.dnsnames v.dnsName v.objectName

lemma addEntryVersion_live_eq (st : GState) (v : EntryVersion) (status : RStatus)
    (hD : v.isDeleting = false)
    (hM : isManaging st v = true)
    (hOld : ∀ o, getEntry st.entries v.objectName = some o → o.dnsName = v.dnsName) :
    addEntryVersion st v status
      = arbitrateAndInstall (liveState st v) v (mkEntry v) status [] [] := by
  unfold addEntryVersion liveState
  simp only [isManaging] at hM ⊢
  try dsimp only
  rw [hD]
  simp only [Bool.false_eq_true, if_false]
  simp only [hM, Bool.and_true]
  cases hO : getEntry st.entries v.objectName with
  | none =>
    try dsimp only
    by_cases hval : (mkEntry v).valid = true <;>
      rcases hPT : v.statusProviderType with _ | t
    · rw [hPT] at hM
      simp at hM
    · rw [hPT] at hM
      simp at hM
      simp [hPT, hM, hval]
    · rw [hPT] at hM
      simp at hM
    · rw [hPT] at hM
      simp at hM
      simp [hPT, hM, hval]
  | some o =>
    have hdn : ¬ (o.dnsName ≠ (mkEntry v).dnsName) := by
      intro hcon
      exact hcon (hOld o hO)
    try dsimp only
    rw [if_neg hdn]
    try dsimp only
    by_cases hval : (mkEntry v).valid = true <;>
      rcases hPT : v.statusProviderType with _ | t
    · rw [hPT] at hM
      simp at hM
    · rw [hPT] at hM
      simp at hM
      simp [hPT, hM, hval]
    · rw [hPT] at hM
      simp at hM
    · rw [hPT] at hM
      simp at hM
      simp [hPT, hM, hval]

/-- C1 (amended): in AddEntryVersion, when a non-deleting entry version
finds its non-empty DNS name held by a different indexed entry: if the
holder is earlier under Before, the new entry is marked duplicate with
modified cleared and, when the incoming reconcile status is succeeded,
its status is transitioned to error with the AlreadyBusy diagnostic
citing the holder, the holder keeping the name; if the new entry is
earlier, the holder is marked duplicate with modified cleared and
re-triggered, and the new entry replaces it in the dnsnames index. -/
theorem addEntryVersion_duplicate_arbitration (st : GState) (v : EntryVersion)
    (status : RStatus) (c : Entry) (cn : String)
    (hD : v.isDeleting = false)
    (hM : isManaging st v = true)
    (hName : v.dnsName ≠ "")
    (hOld : ∀ o, getEntry st.entries v.objectName = some o → o.dnsName = v.dnsName)
    (hCur : aget st.dnsnames v.dnsName = some cn)
    (hcn : cn ≠ v.objectName)
    (hCE : getEntry st.entries cn = some c) :
    (beforeE c (mkEntry v) = true → status.isSucceeded = true →
      ∃ e, (addEntryVersion st v status).entry = some e ∧
        e.duplicate = true ∧ e.modified = false ∧ e.statusState = STATE_ERROR ∧
        (addEntryVersion st v status).statusUpdates
          = [StatusUpdate.mk v.objectName STATE_ERROR (alreadyBusyMsg v.dnsName cn)] ∧
        aget (addEntryVersion st v status).state.dnsnames v.dnsName = some cn) ∧
    (beforeE (mkEntry v) c = true →
      getEntry (addEntryVersion st v status).state.entries cn
        = some { c with duplicate := true, modified := false } ∧
      (addEntryVersion st v status).triggeredKeys = [cn] ∧
      aget (addEntryVersion st v status).state.dnsnames v.dnsName = some v.objectName ∧
      ∃ e, (addEntryVersion st v status).entry = some e ∧ e.duplicate = false) := by
  have hcnc : c.objectName = cn := getEntry_name hCE
  have hne : c.objectName ≠ v.objectName := by
    rw [hcnc]
    exact hcn
  have hRed := addEntryVersion_live_eq st v status hD hM hOld
  have hCur2 : aget (liveState st v).dnsnames v.dnsName = some cn := hCur
  have hCE2 : getEntry (liveState st v).entries cn = some c := by
    show getEntry (putEntry st.entries (mkEntry v)) cn = some c
    rw [getEntry_putEntry_ne st.entries (mkEntry v) (show cn ≠ (mkEntry v).objectName from hcn)]
    exact hCE
  constructor
  · intro hb hs
    rw [hRed]
    obtain ⟨e, he, h1, h2, h3, h4, h5, _⟩ :=
      arbitrate_loser (liveState st v) v status c cn hName hCur2 hCE2 hne hb hs
    refine ⟨e, he, h1, h2, h3, ?_, ?_⟩
    · rw [h4, hcnc]
    · rw [h5]
      exact hCur2
  · intro hb
    rw [hRed]
    obtain ⟨h1, h2, h3, e, he, hd⟩ :=
      arbitrate_winner (liveState st v) v status c cn hName hCur2 hCE2 hne hb
    refine ⟨h1, ?_, h3, e, he, hd⟩
    rw [h2, hcnc]

/-- Concrete instances of the duplicate arbitration: the later entry e2
loses against the holder e1 and goes to error; an earlier version of e2
wins, the holder is marked duplicate and re-triggered, and e2 takes the
name. -/
theorem addEntryVersion_duplicate_arbitration_witness :
    (∃ e, (addEntryVersion exSt exV (.succeeded none)).entry = some e ∧
      e.duplicate = true ∧ e.modified = false ∧ e.statusState = STATE_ERROR ∧
      (addEntryVersion exSt exV (.succeeded none)).statusUpdates
        = [StatusUpdate.mk exV.objectName STATE_ERROR (alreadyBusyMsg exV.dnsName "e1")] ∧
      aget (addEntryVersion exSt exV (.succeeded none)).state.dnsnames exV.dnsName
        = some "e1") ∧
    (getEntry (addEntryVersion exSt { exV with creation := 0 }
          (.succeeded none)).state.entries "e1"
        = some { exHolder with duplicate := true, modified := false } ∧
      (addEntryVersion exSt { exV with creation := 0 } (.succeeded none)).triggeredKeys
        = ["e1"] ∧
      aget (addEntryVersion exSt { exV with creation := 0 }
          (.succeeded none)).state.dnsnames
          ({ exV with creation := 0 } : EntryVersion).dnsName
        = some ({ exV with creation := 0 } : EntryVersion).objectName ∧
      ∃ e, (addEntryVersion exSt { exV with creation := 0 } (.succeeded none)).entry
          = some e ∧ e.duplicate = false) := by
  have hnone : getEntry exSt.entries exV.objectName = none := by decide
  constructor
  · exact (addEntryVersion_duplicate_arbitration exSt exV (.succeeded none) exHolder "e1"
      rfl rfl (by decide)
      (fun o ho => absurd (hnone ▸ ho) (by simp))
      rfl (by decide) rfl).1 (by decide) rfl
  · exact (addEntryVersion_duplicate_arbitration exSt { exV with creation := 0 }
      (.succeeded none) exHolder "e1"
      rfl rfl (by decide)
      (fun o ho => absurd (hnone ▸ ho) (by simp))
      rfl (by decide) rfl).2 (by decide)

/-- C1 counterexample: with a non-succeeded incoming reconcile status the
losing entry is marked duplicate with modified cleared, but its status is
not transitioned to error and no AlreadyBusy status write happens. -/
theorem addEntryVersion_duplicate_arbitration_cex :
    beforeE exHolder (mkEntry exV) = true ∧
    exV.isDeleting = false ∧
    ((addEntryVersion exSt exV .delayed).entry.map Entry.duplicate) = some true ∧
    ((addEntryVersion exSt exV .delayed).entry.map Entry.modified) = some false ∧
    (addEntryVersion exSt exV .delayed).statusUpdates = [] ∧
    ((addEntryVersion exSt exV .delayed).entry.map Entry.statusState) ≠ some STATE_ERROR := by
  decide

lemma findDuplicate_eq_selectMin (target : String) :
    ∀ (l : List Entry) (acc : Option Entry),
      findDuplicate target l acc
        = selectMin acc (l.filter (fun a => a.duplicate && a.dnsName == target)) := by
  intro l
  induction l with
  | nil =>
    intro acc
    rfl
  | cons a rest ih =>
    intro acc
    by_cases hc : (a.duplicate && a.dnsName == target) = true
    · simp only [List.filter_cons, hc, if_true]
      unfold findDuplicate selectMin
      rw [if_pos hc]
      cases acc with
      | none => exact ih _
      | some f => exact ih _
    · simp only [List.filter_cons, hc, if_false]
      unfold findDuplicate
      rw [if_neg hc]
      exact ih acc

lemma selectMin_eq_none : ∀ (l : List Entry) (acc : Option Entry),
    selectMin acc l = none → acc = none ∧ l = [] := by
  intro l
  induction l with
  | nil =>
    intro acc h
    exact ⟨h, rfl⟩
  | cons a rest ih =>
    intro acc h
    exfalso
    unfold selectMin at h
    cases acc with
    | none =>
      have h' : selectMin (some a) rest = none := h
      have h2 := (ih _ h').1
      cases h2
    | some f =>
      have h' : selectMin (if beforeE a f = true then some a else some f) rest = none := h
      have h2 := (ih _ h').1
      by_cases hb : beforeE a f = true
      · rw [if_pos hb] at h2
        cases h2
      · rw [if_neg hb] at h2
        cases h2

lemma selectMin_mem : ∀ (l : List Entry) (acc : Option Entry) (m : Entry),
    selectMin acc l = some m → acc = some m ∨ m ∈ l := by
  intro l
  induction l with
  | nil =>
    intro acc m h
    exact Or.inl h
  | cons a rest ih =>
    intro acc m h
    unfold selectMin at h
    cases acc with
    | none =>
      have h' : selectMin (some a) rest = some m := h
      rcases ih _ m h' with h1 | h1
      · injection h1 with h2
        exact Or.inr (h2 ▸ List.mem_cons_self a rest)
      · exact Or.inr (List.mem_cons_of_mem a h1)
    | some f =>
      have h' : selectMin (if beforeE a f = true then some a else some f) rest = some m := h
      rcases ih _ m h' with h1 | h1
      · by_cases hb : beforeE a f = true
        · rw [if_pos hb] at h1
          injection h1 with h2
          exact Or.inr (h2 ▸ List.mem_cons_self a rest)
        · rw [if_neg hb] at h1
          exact Or.inl h1
      · exact Or.inr (List.mem_cons_of_mem a h1)

lemma selectMin_min : ∀ (l : List Entry) (acc : Option Entry) (m : Entry),
    (∀ x y, (acc = some x ∨ x ∈ l) → (acc = some y ∨ y ∈ l) → x ≠ y →
        x.objectName ≠ y.objectName) →
    selectMin acc l = some m →
    ∀ x, (acc = some x ∨ x ∈ l) → x ≠ m → beforeE x m = false := by
  intro l
  induction l with
  | nil =>
    intro acc m _ h x hx hxm
    rcases hx with h1 | h1
    · rw [h1] at h
      injection h with h2
      exact absurd h2 hxm
    · cases h1
  | cons a rest ih =>
    intro acc m hn h x hx hxm
    unfold selectMin at h
    cases acc with
    | none =>
      have h' : selectMin (some a) rest = some m := h
      have hn' : ∀ p q, (some a = some p ∨ p ∈ rest) → (some a = some q ∨ q ∈ rest) →
          p ≠ q → p.objectName ≠ q.objectName := by
        intro p q hp hq hpq
        refine hn p q ?_ ?_ hpq
        · rcases hp with h1 | h1
          · injection h1 with h1
            exact Or.inr (h1 ▸ List.mem_cons_self a rest)
          · exact Or.inr (List.mem_cons_of_mem a h1)
        · rcases hq with h1 | h1
          · injection h1 with h1
            exact Or.inr (h1 ▸ List.mem_cons_self a rest)
          · exact Or.inr (List.mem_cons_of_mem a h1)
      have hmin := ih (some a) m hn' h'
      rcases hx with h1 | h1
      · cases h1
      · rcases List.mem_cons.mp h1 with h2 | h2
        · exact hmin x (Or.inl (by rw [h2])) hxm
        · exact hmin x (Or.inr h2) hxm
    | some f =>
      have h' : selectMin (if beforeE a f = true then some a else some f) rest = some m := h
      by_cases hb : beforeE a f = true
      · rw [if_pos hb] at h'
        have hn' : ∀ p q, (some a = some p ∨ p ∈ rest) → (some a = some q ∨ q ∈ rest) →
            p ≠ q → p.objectName ≠ q.objectName := by
          intro p q hp hq hpq
          refine hn p q ?_ ?_ hpq
          · rcases hp with h1 | h1
            · injection h1 with h1
              exact Or.inr (h1 ▸ List.mem_cons_self a rest)
            · exact Or.inr (List.mem_cons_of_mem a h1)
          · rcases hq with h1 | h1
            · injection h1 with h1
              exact Or.inr (h1 ▸ List.mem_cons_self a rest)
            · exact Or.inr (List.mem_cons_of_mem a h1)
        have hmin := ih (some a) m hn' h'
        have hmem := selectMin_mem rest (some a) m h'
        rcases hx with h1 | h1
        · injection h1 with h1
          rw [← h1]
          by_cases hma : m = a
          · rw [hma]
            exact beforeE_asymm hb
          · have hmr : m ∈ rest := by
              rcases hmem with h2 | h2
              · injection h2 with h2
                exact absurd h2.symm hma
              · exact h2
            have ham : beforeE a m = false :=
              hmin a (Or.inl rfl) (fun he => hma he.symm)
            have hnames : m.objectName ≠ a.objectName :=
              hn m a (Or.inr (List.mem_cons_of_mem a hmr))
                (Or.inr (List.mem_cons_self a rest)) hma
            have hma2 : beforeE m a = true := by
              rcases beforeE_total hnames with h3 | h3
              · exact h3
              · rw [h3] at ham
                cases ham
            cases hfm : beforeE f m with
            | false => rfl
            | true =>
              have h4 : beforeE f a = true := beforeE_trans hfm hma2
              have h5 : beforeE f a = false := beforeE_asymm hb
              rw [h5] at h4
              cases h4
        · rcases List.mem_cons.mp h1 with h2 | h2
          · exact hmin x (Or.inl (by rw [h2])) hxm
          · exact hmin x (Or.inr h2) hxm
      · rw [if_neg hb] at h'
        have hb2 : beforeE a f = false := by
          cases hbb : beforeE a f with
          | false => rfl
          | true => exact absurd hbb hb
        have hn' : ∀ p q, (some f = some p ∨ p ∈ rest) → (some f = some q ∨ q ∈ rest) →
            p ≠ q → p.objectName ≠ q.objectName := by
          intro p q hp hq hpq
          refine hn p q ?_ ?_ hpq
          · rcases hp with h1 | h1
            · exact Or.inl h1
            · exact Or.inr (List.mem_cons_of_mem a h1)
          · rcases hq with h1 | h1
            · exact Or.inl h1
            · exact Or.inr (List.mem_cons_of_mem a h1)
        have hmin := ih (some f) m hn' h'
        have hmem := selectMin_mem rest (some f) m h'
        rcases hx with h1 | h1
        · injection h1 with h1
          rw [← h1]
          exact hmin f (Or.inl rfl) (fun he => hxm (by rw [← h1]; exact he))
        · rcases List.mem_cons.mp h1 with h2 | h2
          · rw [h2]
            by_cases hmf : m = f
            · rw [hmf]
              exact hb2
            · have hmr : m ∈ rest := by
                rcases hmem with h3 | h3
                · injection h3 with h3
                  exact absurd h3.symm hmf
                · exact h3
              have hfm : beforeE f m = false :=
                hmin f (Or.inl rfl) (fun he => hmf he.symm)
              have hnames : m.objectName ≠ f.objectName :=
                hn m f (Or.inr (List.mem_cons_of_mem a hmr)) (Or.inl rfl) hmf
              have hmf2 : beforeE m f = true := by
                rcases beforeE_total hnames with h3 | h3
                · exact h3
                · rw [h3] at hfm
                  cases hfm
              cases ham : beforeE a m with
              | false => rfl
              | true =>
                have h4 : beforeE a f = true := beforeE_trans ham hmf2
                rw [hb2] at h4
                cases h4
          · exact hmin x (Or.inr h2) hxm

lemma getEntry_eq_none_iff (l : List Entry) (n : String) :
    getEntry l n = none ↔ ∀ x ∈ l, x.objectName ≠ n := by
  unfold getEntry
  rw [List.find?_eq_none]
  constructor
  · intro h x hx
    have := h x hx
    simpa using this
  · intro h x hx
    simpa using h x hx

lemma getEntry_eq_some_of_mem :
    ∀ {l : List Entry} {n : String} {x : Entry},
      l.Pairwise (fun a b => a.objectName ≠ b.objectName) →
      x ∈ l → x.objectName = n → getEntry l n = some x := by
  intro l
  induction l with
  | nil =>
    intro n x _ hmem _
    cases hmem
  | cons a rest ih =>
    intro n x hnd hmem hname
    rcases List.mem_cons.mp hmem with h1 | h1
    · have han : a.objectName = n := by
        rw [← h1]
        exact hname
      unfold getEntry
      rw [List.find?_cons_of_pos _ (by simp [han])]
      rw [h1]
    · have hne : a.objectName ≠ n := by
        have h2 := (List.pairwise_cons.mp hnd).1 x h1
        rw [hname] at h2
        exact h2
      unfold getEntry
      rw [List.find?_cons_of_neg _ (by simpa using hne)]
      exact ih (List.pairwise_cons.mp hnd).2 h1 hname

lemma getEntry_perm {l1 l2 : List Entry} (hperm : l1.Perm l2)
    (hnd : l1.Pairwise (fun a b => a.objectName ≠ b.objectName)) (n : String) :
    getEntry l1 n = getEntry l2 n := by
  have hnd2 : l2.Pairwise (fun a b => a.objectName ≠ b.objectName) :=
    (hperm.pairwise_iff (fun h => h.symm)).mp hnd
  cases h1 : getEntry l1 n with
  | some x =>
    exact (getEntry_eq_some_of_mem hnd2 (hperm.subset (getEntry_mem h1))
      (getEntry_name h1)).symm
  | none =>
    have h2 := (getEntry_eq_none_iff l1 n).mp h1
    exact ((getEntry_eq_none_iff l2 n).mpr
      (fun x hx => h2 x (hperm.mem_iff.mpr hx))).symm

lemma entriesDelete_sublist (l : List Entry) (e : Entry) :
    (entriesDelete l e).Sublist l := by
  unfold entriesDelete
  cases getEntry l e.objectName with
  | none => exact List.Sublist.refl l
  | some f =>
    show (if f = e then delEntry l e.objectName else l).Sublist l
    by_cases h : f = e
    · rw [if_pos h]
      exact List.filter_sublist l
    · rw [if_neg h]

lemma entriesDelete_perm {l1 l2 : List Entry} (hperm : l2.Perm l1)
    (hnd : l1.Pairwise (fun a b => a.objectName ≠ b.objectName)) (e : Entry) :
    (entriesDelete l2 e).Perm (entriesDelete l1 e) := by
  unfold entriesDelete
  rw [getEntry_perm hperm ((hperm.pairwise_iff (fun h => h.symm)).mpr hnd) e.objectName]
  cases getEntry l1 e.objectName with
  | none => exact hperm
  | some f =>
    show ((if f = e then delEntry l2 e.objectName else l2).Perm
      (if f = e then delEntry l1 e.objectName else l1))
    by_cases h : f = e
    · rw [if_pos h, if_pos h]
      exact hperm.filter _
    · rw [if_neg h, if_neg h]
      exact hperm

lemma selectMin_unique (l1 l2 : List Entry) (hperm : l1.Perm l2)
    (hnd : l1.Pairwise (fun a b => a.objectName ≠ b.objectName)) :
    selectMin none l1 = selectMin none l2 := by
  have hsym : Symmetric (fun a b : Entry => a.objectName ≠ b.objectName) :=
    fun _ _ h => h.symm
  have hnd2 : l2.Pairwise (fun a b => a.objectName ≠ b.objectName) :=
    (hperm.pairwise_iff (fun h => h.symm)).mp hnd
  have hn1 : ∀ x y, ((none : Option Entry) = some x ∨ x ∈ l1) →
      ((none : Option Entry) = some y ∨ y ∈ l1) → x ≠ y → x.objectName ≠ y.objectName := by
    intro x y hx hy hxy
    rcases hx with h | h
    · cases h
    rcases hy with h2 | h2
    · cases h2
    exact (hnd.forall hsym) h h2 hxy
  have hn2 : ∀ x y, ((none : Option Entry) = some x ∨ x ∈ l2) →
      ((none : Option Entry) = some y ∨ y ∈ l2) → x ≠ y → x.objectName ≠ y.objectName := by
    intro x y hx hy hxy
    rcases hx with h | h
    · cases h
    rcases hy with h2 | h2
    · cases h2
    exact (hnd2.forall hsym) h h2 hxy
  cases h1 : selectMin none l1 with
  | none =>
    have hl1 : l1 = [] := (selectMin_eq_none l1 none h1).2
    have hl2 : l2 = [] := by
      rw [hl1] at hperm
      exact hperm.symm.eq_nil
    rw [hl2]
    rfl
  | some m1 =>
    cases h2 : selectMin none l2 with
    | none =>
      have hl2 : l2 = [] := (selectMin_eq_none l2 none h2).2
      have hl1 : l1 = [] := by
        rw [hl2] at hperm
        exact hperm.eq_nil
      rw [hl1] at h1
      cases h1
    | some m2 =>
      have hm1mem : m1 ∈ l1 := by
        rcases selectMin_mem l1 none m1 h1 with h | h
        · cases h
        · exact h
      have hm2mem : m2 ∈ l2 := by
        rcases selectMin_mem l2 none m2 h2 with h | h
        · cases h
        · exact h
      have hm2mem1 : m2 ∈ l1 := hperm.mem_iff.mpr hm2mem
      by_cases heq : m1 = m2
      · rw [heq]
      · exfalso
        have hmin1 := selectMin_min l1 none m1 hn1 h1
        have hmin2 := selectMin_min l2 none m2 hn2 h2
        have h3 : beforeE m2 m1 = false :=
          hmin1 m2 (Or.inr hm2mem1) (fun he => heq he.symm)
        have h4 : beforeE m1 m2 = false :=
          hmin2 m1 (Or.inr (hperm.mem_iff.mp hm1mem)) heq
        have hnames : m1.objectName ≠ m2.objectName :=
          (hnd.forall hsym) hm1mem hm2mem1 heq
        rcases beforeE_total hnames with h5 | h5
        · rw [h5] at h4
          cases h4
        · rw [h5] at h3
          cases h3

/-- C2: cleanupEntry on the holder of the active claim of a DNS name
releases the name from the dnsnames index, scans the remaining indexed
entries and, among those marked duplicate with the same DNS name,
triggers exactly the one minimal under Before (earliest creation, object
name tie-break; no trigger when there is none); the selected winner is
the same for every permutation of the entry index. -/
theorem cleanupEntry_promotion (st : GState) (e : Entry)
    (hact : aget st.dnsnames e.dnsName = some e.objectName)
    (hnd : st.entries.Pairwise (fun a b => a.objectName ≠ b.objectName)) :
    aget (cleanupEntry st e).state.dnsnames e.dnsName = none ∧
    ((cleanupEntry st e).triggered = [] → dupCands st e = []) ∧
    (dupCands st e ≠ [] → (cleanupEntry st e).triggered ≠ []) ∧
    (∀ n, (cleanupEntry st e).triggered = [n] →
      ∃ m, m ∈ dupCands st e ∧ m.objectName = n ∧
        ∀ a ∈ dupCands st e, a ≠ m → beforeE m a = true) ∧
    (∀ l2, l2.Perm st.entries →
      (cleanupEntry { st with entries := l2 } e).triggered
        = (cleanupEntry st e).triggered) := by
  have hsym : Symmetric (fun a b : Entry => a.objectName ≠ b.objectName) :=
    fun _ _ h => h.symm
  have hndDel : (entriesDelete st.entries e).Pairwise
      (fun a b => a.objectName ≠ b.objectName) :=
    hnd.sublist (entriesDelete_sublist st.entries e)
  have hndC : (dupCands st e).Pairwise (fun a b => a.objectName ≠ b.objectName) :=
    hndDel.sublist (List.filter_sublist _)
  have hclean : cleanupEntry st e
      = { state :=
            { st with
              entries := entriesDelete st.entries e
              dnsnames := adel st.dnsnames e.dnsName }
          triggered :=
            match findDuplicate e.dnsName (entriesDelete st.entries e) none with
            | some f => [f.objectName]
            | none => [] } := by
    unfold cleanupEntry
    dsimp only
    rw [if_pos hact]
  refine ⟨?_, ?_, ?_, ?_, ?_⟩
  · rw [hclean]
    exact aget_adel st.dnsnames e.dnsName
  · intro htr
    rw [hclean] at htr
    dsimp only at htr
    rw [findDuplicate_eq_selectMin] at htr
    unfold dupCands
    cases hF : selectMin none ((entriesDelete st.entries e).filter
        (fun a => a.duplicate && a.dnsName == e.dnsName)) with
    | none => exact (selectMin_eq_none _ _ hF).2
    | some m =>
      rw [hF] at htr
      cases htr
  · intro hne htr
    rw [hclean] at htr
    dsimp only at htr
    rw [findDuplicate_eq_selectMin] at htr
    cases hF : selectMin none ((entriesDelete st.entries e).filter
        (fun a => a.duplicate && a.dnsName == e.dnsName)) with
    | none => exact hne ((selectMin_eq_none _ _ hF).2)
    | some m =>
      rw [hF] at htr
      cases htr
  · intro n htr
    rw [hclean] at htr
    dsimp only at htr
    rw [findDuplicate_eq_selectMin] at htr
    cases hF : selectMin none ((entriesDelete st.entries e).filter
        (fun a => a.duplicate && a.dnsName == e.dnsName)) with
    | none =>
      rw [hF] at htr
      cases htr
    | some m =>
      rw [hF] at htr
      have hmn : m.objectName = n := by
        injection htr
      have hmem : m ∈ (entriesDelete st.entries e).filter
          (fun a => a.duplicate && a.dnsName == e.dnsName) := by
        rcases selectMin_mem _ _ _ hF with h | h
        · cases h
        · exact h
      refine ⟨m, hmem, hmn, ?_⟩
      intro a ha ham
      have hn1 : ∀ x y,
          ((none : Option Entry) = some x ∨ x ∈ (entriesDelete st.entries e).filter
            (fun a => a.duplicate && a.dnsName == e.dnsName)) →
          ((none : Option Entry) = some y ∨ y ∈ (entriesDelete st.entries e).filter
            (fun a => a.duplicate && a.dnsName == e.dnsName)) →
          x ≠ y → x.objectName ≠ y.objectName := by
        intro x y hx hy hxy
        rcases hx with h | h
        · cases h
        rcases hy with h2 | h2
        · cases h2
        exact (hndC.forall hsym) h h2 hxy
      have hfalse : beforeE a m = false :=
        selectMin_min _ none m hn1 hF a (Or.inr ha) ham
      have hnames : m.objectName ≠ a.objectName :=
        (hndC.forall hsym) hmem ha (fun he => ham he.symm)
      rcases beforeE_total hnames with h5 | h5
      · exact h5
      · rw [h5] at hfalse
        cases hfalse
  · intro l2 hperm
    have hclean2 : cleanupEntry { st with entries := l2 } e
        = { state :=
              { st with
                entries := entriesDelete l2 e
                dnsnames := adel st.dnsnames e.dnsName }
            triggered :=
              match findDuplicate e.dnsName (entriesDelete l2 e) none with
              | some f => [f.objectName]
              | none => [] } := by
      unfold cleanupEntry
      dsimp only
      rw [if_pos hact]
    rw [hclean, hclean2]
    dsimp only
    rw [findDuplicate_eq_selectMin, findDuplicate_eq_selectMin]
    have hpermDel : (entriesDelete l2 e).Perm (entriesDelete st.entries e) :=
      entriesDelete_perm hperm hnd e
    have hpermC := hpermDel.filter (fun a => a.duplicate && a.dnsName == e.dnsName)
    have hndC2 : ((entriesDelete l2 e).filter
        (fun a => a.duplicate && a.dnsName == e.dnsName)).Pairwise
        (fun a b => a.objectName ≠ b.objectName) :=
      (hpermC.pairwise_iff (fun h => h.symm)).mpr hndC
    rw [selectMin_unique _ _ hpermC hndC2]

/-- Concrete instance of the duplicate promotion: the holder e1 leaves,
the earlier duplicate d2 (creation 3) wins over d1 (creation 5) for
every permutation of the index. -/
theorem cleanupEntry_promotion_witness :
    aget (cleanupEntry exCleanSt exHolder).state.dnsnames exHolder.dnsName = none ∧
    ((cleanupEntry exCleanSt exHolder).triggered = [] →
      dupCands exCleanSt exHolder = []) ∧
    (dupCands exCleanSt exHolder ≠ [] →
      (cleanupEntry exCleanSt exHolder).triggered ≠ []) ∧
    (∀ n, (cleanupEntry exCleanSt exHolder).triggered = [n] →
      ∃ m, m ∈ dupCands exCleanSt exHolder ∧ m.objectName = n ∧
        ∀ a ∈ dupCands exCleanSt exHolder, a ≠ m → beforeE m a = true) ∧
    (∀ l2, l2.Perm exCleanSt.entries →
      (cleanupEntry { exCleanSt with entries := l2 } exHolder).triggered
        = (cleanupEntry exCleanSt exHolder).triggered) :=
  cleanupEntry_promotion exCleanSt exHolder (by decide) (by decide)

end EDNS
